import Mathlib

/-!
Verification of the fund-portfolio data-migration core (two JavaScript
modules: the full migration module and a reduced copy holding only
`generateId`, `createPortfolio` and `validateV2Data`).

The JavaScript value universe is shallowly embedded as `JSVal`.
Abstractions of the embedding, stated once here:
* numbers are `Int` (the source only ever compares `refreshMs`/`version`
  against integer bounds; no claim exercises float or `NaN` behaviour);
* `ToNumber` coercion (used only by the `version >= 2` comparison) is
  modelled for `null`, booleans, numbers and canonical decimal integer
  strings; other strings, arrays and plain objects coerce to "not a
  number" (comparison false);
* strict equality (`===`) and `Set`/`Map` key equality are structural;
  reference identity of distinct but structurally equal objects is not
  modelled;
* property access on a string or array receiver (index keys, `length`)
  yields `undefined`, and spreading a string or array into an *object*
  literal contributes no fields — the source only reads named fields
  from plain objects, so no claim exercises these corners;
* a thrown `TypeError` (reading a property of `null`/`undefined`,
  calling an array method on a non-array, spreading a non-iterable into
  an array literal) is `Except.error`.
-/

/-- A JavaScript runtime value, as far as the migration core observes it. -/
inductive JSVal : Type where
  | undefined : JSVal
  | null : JSVal
  | bool : Bool → JSVal
  | num : Int → JSVal
  | str : String → JSVal
  | arr : List JSVal → JSVal
  | obj : List (String × JSVal) → JSVal
deriving Repr

namespace JSVal

mutual

/-- Structural (boolean) equality of values. -/
def beqVal : JSVal → JSVal → Bool
  | .undefined, .undefined => true
  | .null, .null => true
  | .bool a, .bool b => a = b
  | .num a, .num b => a = b
  | .str a, .str b => a = b
  | .arr xs, .arr ys => beqList xs ys
  | .obj fs, .obj gs => beqFields fs gs
  | _, _ => false

/-- Structural equality of value lists. -/
def beqList : List JSVal → List JSVal → Bool
  | [], [] => true
  | x :: xs, y :: ys => beqVal x y && beqList xs ys
  | _, _ => false

/-- Structural equality of field lists. -/
def beqFields : List (String × JSVal) → List (String × JSVal) → Bool
  | [], [] => true
  | (k, v) :: fs, (l, w) :: gs => k = l && beqVal v w && beqFields fs gs
  | _, _ => false

end

mutual

theorem beqVal_iff : ∀ a b : JSVal, beqVal a b = true ↔ a = b
  | .undefined, .undefined => by simp [beqVal]
  | .null, .null => by simp [beqVal]
  | .bool a, .bool b => by simp [beqVal]
  | .num a, .num b => by simp [beqVal]
  | .str a, .str b => by simp [beqVal]
  | .arr xs, .arr ys => by
      simp only [beqVal, arr.injEq]; exact beqList_iff xs ys
  | .obj fs, .obj gs => by
      simp only [beqVal, obj.injEq]; exact beqFields_iff fs gs
  | .undefined, .null | .undefined, .bool _ | .undefined, .num _ | .undefined, .str _
  | .undefined, .arr _ | .undefined, .obj _
  | .null, .undefined | .null, .bool _ | .null, .num _ | .null, .str _
  | .null, .arr _ | .null, .obj _
  | .bool _, .undefined | .bool _, .null | .bool _, .num _ | .bool _, .str _
  | .bool _, .arr _ | .bool _, .obj _
  | .num _, .undefined | .num _, .null | .num _, .bool _ | .num _, .str _
  | .num _, .arr _ | .num _, .obj _
  | .str _, .undefined | .str _, .null | .str _, .bool _ | .str _, .num _
  | .str _, .arr _ | .str _, .obj _
  | .arr _, .undefined | .arr _, .null | .arr _, .bool _ | .arr _, .num _
  | .arr _, .str _ | .arr _, .obj _
  | .obj _, .undefined | .obj _, .null | .obj _, .bool _ | .obj _, .num _
  | .obj _, .str _ | .obj _, .arr _ => by simp [beqVal]

theorem beqList_iff : ∀ xs ys : List JSVal, beqList xs ys = true ↔ xs = ys
  | [], [] => by simp [beqList]
  | [], _ :: _ => by simp [beqList]
  | _ :: _, [] => by simp [beqList]
  | x :: xs, y :: ys => by
      simp only [beqList, Bool.and_eq_true, List.cons.injEq]
      exact and_congr (beqVal_iff x y) (beqList_iff xs ys)

theorem beqFields_iff :
    ∀ fs gs : List (String × JSVal), beqFields fs gs = true ↔ fs = gs
  | [], [] => by simp [beqFields]
  | [], _ :: _ => by simp [beqFields]
  | _ :: _, [] => by simp [beqFields]
  | (k, v) :: fs, (l, w) :: gs => by
      simp only [beqFields, Bool.and_eq_true, List.cons.injEq, Prod.mk.injEq,
        decide_eq_true_eq]
      rw [beqVal_iff v w, beqFields_iff fs gs, and_assoc]

end

instance : DecidableEq JSVal := fun a b => decidable_of_iff _ (beqVal_iff a b)

/-- JavaScript truthiness. -/
def truthy : JSVal → Bool
  | .undefined => false
  | .null => false
  | .bool b => b
  | .num n => n != 0
  | .str s => s ≠ ""
  | .arr _ => true
  | .obj _ => true

/-- Whether `typeof v` evaluates to the string "object". -/
def isObjType : JSVal → Bool
  | .null => true
  | .arr _ => true
  | .obj _ => true
  | _ => false

/-- The source's object guard: `value && typeof value === 'object'`. -/
def isObjectLike (v : JSVal) : Bool := truthy v && isObjType v

/-- First binding of a key in an object's field list. -/
def lookupF : List (String × JSVal) → String → JSVal
  | [], _ => .undefined
  | (k, v) :: fs, key => if k = key then v else lookupF fs key

/-- Total property read `v.key` (valid when `v` is not nullish). -/
def getF : JSVal → String → JSVal
  | .obj fs, key => lookupF fs key
  | _, _ => .undefined

/-- Property read `v.key` as the runtime performs it: reading from
`null` or `undefined` throws a TypeError. -/
def get? (v : JSVal) (key : String) : Except String JSVal :=
  match v with
  | .undefined => .error ("TypeError: cannot read " ++ key ++ " of undefined")
  | .null => .error ("TypeError: cannot read " ++ key ++ " of null")
  | v => .ok (getF v key)

/-- The expression `a || b`. -/
def jsOr (a b : JSVal) : JSVal := if truthy a then a else b

/-- `Array.isArray`. -/
def isArr : JSVal → Bool
  | .arr _ => true
  | _ => false

/-- Elements of an array value (empty for non-arrays). -/
def asArr : JSVal → List JSVal
  | .arr xs => xs
  | _ => []

/-- Invoking an array method (`map`, `filter`, `forEach`) on `v`:
throws unless `v` is an array. -/
def arrayOf? (v : JSVal) : Except String (List JSVal) :=
  match v with
  | .arr xs => .ok xs
  | _ => .error "TypeError: not a function"

/-- Array-literal spread `[...v]`: arrays and strings are iterable,
anything else throws. -/
def spreadArr? (v : JSVal) : Except String (List JSVal) :=
  match v with
  | .arr xs => .ok xs
  | .str s => .ok (s.toList.map fun c => .str (String.singleton c))
  | _ => .error "TypeError: not iterable"

/-- Object-literal spread `{...v}`: fields of a plain object, nothing
from primitives (index keys of strings/arrays are not modelled). -/
def spreadFields : JSVal → List (String × JSVal)
  | .obj fs => fs
  | _ => []

/-- Writing key `k` in an object literal after a spread: overwrite the
first existing binding in place, else append. -/
def setField : List (String × JSVal) → String → JSVal → List (String × JSVal)
  | [], key, v => [(key, v)]
  | (k, w) :: fs, key, v =>
      if k = key then (k, v) :: fs else (k, w) :: setField fs key v

/-- Keys of a plain object, in insertion order. -/
def keys : JSVal → List String
  | .obj fs => fs.map Prod.fst
  | _ => []

/-- JavaScript `ToNumber`, partially: `none` stands for `NaN` (see the
file header for the abstraction on strings/arrays/objects). -/
def toNumber : JSVal → Option Int
  | .undefined => none
  | .null => some 0
  | .bool b => some (if b then 1 else 0)
  | .num n => some n
  | .str s => if s.trim = "" then some 0 else s.trim.toInt?
  | .arr _ => none
  | .obj _ => none

/-- The comparison `v >= 2` (false when either side is `NaN`). -/
def geTwo (v : JSVal) : Bool :=
  match toNumber v with
  | some m => decide (2 ≤ m)
  | none => false

/-- Membership test of a `Set` built from a list (structural equality). -/
def memJS (x : JSVal) (l : List JSVal) : Bool := l.any fun y => y = x

/-- Set insertion pass: an element already seen is dropped, a fresh one
is kept and recorded. -/
def firstDedupAux (seen : List JSVal) : List JSVal → List JSVal
  | [] => []
  | x :: xs =>
      if memJS x seen then firstDedupAux seen xs
      else x :: firstDedupAux (seen ++ [x]) xs

/-- Order-preserving deduplication as `Array.from(new Set(l))`:
first occurrence kept, later duplicates dropped. -/
def firstDedup (l : List JSVal) : List JSVal := firstDedupAux [] l

mutual

/-- JavaScript `ToString` of a value, as template literals perform it. -/
def jsToString : JSVal → String
  | .undefined => "undefined"
  | .null => "null"
  | .bool b => if b then "true" else "false"
  | .num n => toString n
  | .str s => s
  | .arr xs => jsToStringList xs
  | .obj _ => "[object Object]"

/-- `Array.prototype.toString`: elements joined by commas, with nullish
elements rendered empty. -/
def jsToStringList : List JSVal → String
  | [] => ""
  | [x] => jsToStringElem x
  | x :: y :: xs => jsToStringElem x ++ "," ++ jsToStringList (y :: xs)

/-- One array element inside `join`: nullish becomes the empty string. -/
def jsToStringElem : JSVal → String
  | .undefined => ""
  | .null => ""
  | .bool b => if b then "true" else "false"
  | .num n => toString n
  | .str s => s
  | .arr xs => jsToStringList xs
  | .obj _ => "[object Object]"

end

end JSVal

/-! The full migration module (source file of unknown name, `part_000`). -/

namespace Part000

open JSVal

/-- The check `typeof v === 'number' && v >= m`. -/
def numGE (v : JSVal) (m : Int) : Bool :=
  match v with
  | .num n => decide (m ≤ n)
  | _ => false

/-- The check `v && typeof v === 'object' && !Array.isArray(v)`. -/
def plainObjCheck (v : JSVal) : Bool :=
  truthy v && isObjType v && ¬ isArr v

/-- Detects a legacy (v1) data document. -/
def isLegacyData (data : JSVal) : Bool :=
  if ¬ isObjectLike data then false
  else if truthy (getF data "version") && geTwo (getF data "version") then false
  else isArr (getF data "funds") || getF data "holdings" ≠ .undefined

/-- Hex digit as produced by `Number.prototype.toString(16)` on 0..15. -/
def hexChar (n : Nat) : Char :=
  if n < 10 then Char.ofNat ('0'.toNat + n) else Char.ofNat ('a'.toNat + (n - 10))

/-- The fallback UUID construction: each `x`/`y` of the template consumes
one random draw `r = (Math.random()*16)|0`, rendered as `r` for `x` and
`(r & 0x3) | 0x8` for `y`. -/
def uuidFill (rand : Nat → Nat) : String :=
  String.mk
    (("xxxxxxxx-xxxx-4xxx-yxxx-xxxxxxxxxxxx".toList.foldl
      (fun acc c =>
        match c with
        | 'x' => (acc.1 ++ [hexChar (rand acc.2 % 16)], acc.2 + 1)
        | 'y' => (acc.1 ++ [hexChar ((rand acc.2 % 16) &&& 3 ||| 8)], acc.2 + 1)
        | c => (acc.1 ++ [c], acc.2))
      ([], 0)).1)

/-- UUID generator: the platform `crypto.randomUUID` when available,
else the template fallback.  The entropy sources are parameters. -/
def generateId (cryptoOk : Bool) (cryptoUUID : String) (rand : Nat → Nat) : String :=
  if cryptoOk then cryptoUUID else uuidFill rand

/-- A parameter `name` with JS default `'默认账本'` (applies to `undefined`). -/
def defaultedName (name : JSVal) : JSVal :=
  if name = .undefined then .str "默认账本" else name

/-- Creates a fresh portfolio.  `id` stands for the `generateId()` result
and `now` for `new Date().toISOString()`. -/
def createPortfolio (id now : String) (name : JSVal) : JSVal :=
  .obj [("id", .str id),
        ("name", jsOr name (.str "新账本")),
        ("createdAt", .str now),
        ("funds", .arr []),
        ("favorites", .arr []),
        ("groups", .arr []),
        ("holdings", .obj []),
        ("pendingTrades", .arr [])]

/-- Creates an empty v2 document. -/
def createEmptyV2Data (id now : String) : JSVal :=
  .obj [("version", .num 2),
        ("refreshMs", .num 30000),
        ("portfolios", .arr [
          .obj [("id", .str id),
                ("name", .str "默认账本"),
                ("createdAt", .str now),
                ("funds", .arr []),
                ("favorites", .arr []),
                ("groups", .arr []),
                ("holdings", .obj []),
                ("pendingTrades", .arr [])]])]

/-- Migrates a legacy document to the v2 multi-portfolio shape.  Reading
a field of a nullish `oldData` throws. -/
def migrateToV2 (id now : String) (oldData name : JSVal) : Except String JSVal := do
  let r ← get? oldData "refreshMs"
  let f ← get? oldData "funds"
  let fav ← get? oldData "favorites"
  let g ← get? oldData "groups"
  let h ← get? oldData "holdings"
  let pt ← get? oldData "pendingTrades"
  .ok (.obj [("version", .num 2),
    ("refreshMs", if numGE r 5000 then r else .num 30000),
    ("portfolios", .arr [
      .obj [("id", .str id),
            ("name", defaultedName name),
            ("createdAt", .str now),
            ("funds", if isArr f then f else .arr []),
            ("favorites", if isArr fav then fav else .arr []),
            ("groups", if isArr g then g else .arr []),
            ("holdings", if plainObjCheck h then h else .obj []),
            ("pendingTrades", if isArr pt then pt else .arr [])]])])

/-- Composite deduplication key of a pending trade: a truthy `id` yields
the id-namespaced key, otherwise the template over the trade tuple. -/
def keyOf (t : JSVal) : String :=
  if truthy (getF t "id") then "id:" ++ jsToString (getF t "id")
  else "k:" ++ jsToString (jsOr (getF t "fundCode") (.str ""))
    ++ ":" ++ jsToString (jsOr (getF t "type") (.str ""))
    ++ ":" ++ jsToString (jsOr (getF t "date") (.str ""))
    ++ ":" ++ jsToString (jsOr (getF t "share") (.str ""))
    ++ ":" ++ jsToString (jsOr (getF t "amount") (.str ""))
    ++ ":" ++ (if truthy (getF t "isAfter3pm") then "1" else "0")

/-- The `findIndex(g => g.id === incomingGroup.id)` scan: the callback
reads `g.id` and the incoming group's `id` on each invocation (so a
nullish element or nullish incoming group throws once the list is
non-empty), and never runs on an empty list. -/
def findIdxById : List JSVal → JSVal → Except String (Option Nat)
  | [], _ => .ok none
  | g :: gs, inc => do
      let gid ← get? g "id"
      let iid ← get? inc "id"
      if gid = iid then .ok (some 0)
      else do
        let r ← findIdxById gs inc
        .ok (r.map (· + 1))

/-- Folds one incoming legacy group into the accumulated group list. -/
def mergeOneGroup (allCodes : List JSVal) (gs : List JSVal) (inc : JSVal) :
    Except String (List JSVal) := do
  let idx ← findIdxById gs inc
  match idx with
  | some i => do
      let old := gs.getD i .undefined
      let oldCodes ← spreadArr? (getF old "codes")
      let incCodesV ← get? inc "codes"
      let incCodes ← spreadArr? (jsOr incCodesV (.arr []))
      let newCodes := (firstDedup (oldCodes ++ incCodes)).filter fun c => memJS c allCodes
      .ok (gs.set i (.obj (setField (spreadFields old) "codes" (.arr newCodes))))
  | none => do
      let incCodesV ← get? inc "codes"
      let incCodes ← arrayOf? (jsOr incCodesV (.arr []))
      let fCodes := incCodes.filter fun c => memJS c allCodes
      .ok (gs ++ [.obj (setField (spreadFields inc) "codes" (.arr fCodes))])

/-- The `forEach` over legacy groups, threading the mutated merged list. -/
def mergeGroups (allCodes : List JSVal) : List JSVal → List JSVal → Except String (List JSVal)
  | gs, [] => .ok gs
  | gs, inc :: incs => do
      let gs' ← mergeOneGroup allCodes gs inc
      mergeGroups allCodes gs' incs

/-- Object spread overlay `{...fs, ...gs}`: later fields overwrite in
place, fresh keys append in order. -/
def overlayFields : List (String × JSVal) → List (String × JSVal) → List (String × JSVal)
  | fs, [] => fs
  | fs, (k, v) :: gs => overlayFields (setField fs k v) gs

/-- Holdings merge: legacy over portfolio, then keys whose code is not a
merged fund code are deleted. -/
def mergeHoldings (allCodes : List JSVal) (hp hl : JSVal) : List (String × JSVal) :=
  (overlayFields (spreadFields (jsOr hp (.obj []))) (spreadFields (jsOr hl (.obj []))))
    |>.filter fun kv => memJS (.str kv.1) allCodes

/-- The pending-trade `forEach`: each truthy trade whose `fundCode` is a
merged code is inserted into the map under its composite key. -/
def insertTrades (allCodes : List JSVal) :
    List (String × JSVal) → List JSVal → List (String × JSVal)
  | m, [] => m
  | m, t :: ts =>
      insertTrades allCodes
        (if truthy t && memJS (getF t "fundCode") allCodes
         then setField m (keyOf t) t else m) ts

/-- The `.map(f => f.code)` over a fund list: reading `code` of a
nullish element throws. -/
def mapCodes : List JSVal → Except String (List JSVal)
  | [] => .ok []
  | f :: fs => do
      let c ← get? f "code"
      let cs ← mapCodes fs
      .ok (c :: cs)

/-- Merges a legacy document's collections into an existing portfolio. -/
def mergeOldDataToPortfolio (portfolio oldData : JSVal) : Except String JSVal :=
  if ¬ truthy portfolio || ¬ truthy oldData then .ok portfolio
  else do
    let pfunds ← arrayOf? (jsOr (getF portfolio "funds") (.arr []))
    let existingCodes ← mapCodes pfunds
    let lfunds ← arrayOf? (jsOr (getF oldData "funds") (.arr []))
    let newFunds := lfunds.filter fun f =>
      truthy f && truthy (getF f "code") && ¬ memJS (getF f "code") existingCodes
    let mergedFunds := pfunds ++ newFunds
    let allCodes ← mapCodes mergedFunds
    let pfav ← spreadArr? (jsOr (getF portfolio "favorites") (.arr []))
    let lfav ← spreadArr? (jsOr (getF oldData "favorites") (.arr []))
    let mergedFavorites := (firstDedup (pfav ++ lfav)).filter fun c => memJS c allCodes
    let pgroups ← spreadArr? (jsOr (getF portfolio "groups") (.arr []))
    let lgroups ← arrayOf? (jsOr (getF oldData "groups") (.arr []))
    let mergedGroups ← mergeGroups allCodes pgroups lgroups
    let mergedHoldings := mergeHoldings allCodes (getF portfolio "holdings") (getF oldData "holdings")
    let ppt ← arrayOf? (jsOr (getF portfolio "pendingTrades") (.arr []))
    let lpt ← arrayOf? (jsOr (getF oldData "pendingTrades") (.arr []))
    let pendingMap := insertTrades allCodes (insertTrades allCodes [] ppt) lpt
    let mergedPending := pendingMap.map Prod.snd
    .ok (.obj (setField (setField (setField (setField (setField (spreadFields portfolio)
        "funds" (.arr mergedFunds))
        "favorites" (.arr mergedFavorites))
        "groups" (.arr mergedGroups))
        "holdings" (.obj mergedHoldings))
        "pendingTrades" (.arr mergedPending)))

/-- Repairs one portfolio entry of a v2 document; `fresh` stands for the
`generateId()` result consumed only when `p.id` is falsy. -/
def repairPortfolio (fresh now : String) (p : JSVal) : Except String JSVal := do
  let pid ← get? p "id"
  let pname ← get? p "name"
  let pca ← get? p "createdAt"
  let pf ← get? p "funds"
  let pfav ← get? p "favorites"
  let pg ← get? p "groups"
  let ph ← get? p "holdings"
  let ppt ← get? p "pendingTrades"
  .ok (.obj [("id", jsOr pid (.str fresh)),
    ("name", jsOr pname (.str "未命名账本")),
    ("createdAt", jsOr pca (.str now)),
    ("funds", if isArr pf then pf else .arr []),
    ("favorites", if isArr pfav then pfav else .arr []),
    ("groups", if isArr pg then pg else .arr []),
    ("holdings", if plainObjCheck ph then ph else .obj []),
    ("pendingTrades", if isArr ppt then ppt else .arr [])])

/-- The `map` over `data.portfolios`; `k` counts `generateId()` calls so
each falsy-id portfolio draws the next id from the supply. -/
def repairPortfolios (ids : Nat → String) (now : String) :
    Nat → List JSVal → Except String (List JSVal)
  | _, [] => .ok []
  | k, p :: ps => do
      let p' ← repairPortfolio (ids k) now p
      let rest ← repairPortfolios ids now (if truthy (getF p "id") then k else k + 1) ps
      .ok (p' :: rest)

/-- Validates and repairs a value claiming to be a v2 document.  `ids`
supplies successive `generateId()` results, `now` the timestamp. -/
def validateV2Data (ids : Nat → String) (now : String) (data : JSVal) :
    Except String JSVal :=
  if ¬ isObjectLike data then .ok (createEmptyV2Data (ids 0) now)
  else do
    let r := getF data "refreshMs"
    let ps := getF data "portfolios"
    let portfolios ←
      if isArr ps && (asArr ps).length > 0 then repairPortfolios ids now 0 (asArr ps)
      else .ok [createPortfolio (ids 0) now (.str "默认账本")]
    .ok (.obj [("version", .num 2),
      ("refreshMs", if numGE r 5000 then r else .num 30000),
      ("portfolios", .arr portfolios)])

end Part000

/-! The reduced duplicate module `src/app/lib/migration.js`: `generateId`,
`createPortfolio` and `validateV2Data` only, with the validator's
non-object branch inlining the empty document. -/

namespace Migration

open JSVal

/-- Hex digit as produced by `Number.prototype.toString(16)` on 0..15. -/
def hexChar (n : Nat) : Char :=
  if n < 10 then Char.ofNat ('0'.toNat + n) else Char.ofNat ('a'.toNat + (n - 10))

/-- The fallback UUID construction of this module (same template). -/
def uuidFill (rand : Nat → Nat) : String :=
  String.mk
    (("xxxxxxxx-xxxx-4xxx-yxxx-xxxxxxxxxxxx".toList.foldl
      (fun acc c =>
        match c with
        | 'x' => (acc.1 ++ [hexChar (rand acc.2 % 16)], acc.2 + 1)
        | 'y' => (acc.1 ++ [hexChar ((rand acc.2 % 16) &&& 3 ||| 8)], acc.2 + 1)
        | c => (acc.1 ++ [c], acc.2))
      ([], 0)).1)

/-- UUID generator of this module. -/
def generateId (cryptoOk : Bool) (cryptoUUID : String) (rand : Nat → Nat) : String :=
  if cryptoOk then cryptoUUID else uuidFill rand

/-- Creates a fresh portfolio (this module's copy). -/
def createPortfolio (id now : String) (name : JSVal) : JSVal :=
  .obj [("id", .str id),
        ("name", jsOr name (.str "新账本")),
        ("createdAt", .str now),
        ("funds", .arr []),
        ("favorites", .arr []),
        ("groups", .arr []),
        ("holdings", .obj []),
        ("pendingTrades", .arr [])]

/-- The check `typeof v === 'number' && v >= m` (this module's copy). -/
def numGE (v : JSVal) (m : Int) : Bool :=
  match v with
  | .num n => decide (m ≤ n)
  | _ => false

/-- Repairs one portfolio entry (this module's copy of the map body). -/
def repairPortfolio (fresh now : String) (p : JSVal) : Except String JSVal := do
  let pid ← get? p "id"
  let pname ← get? p "name"
  let pca ← get? p "createdAt"
  let pf ← get? p "funds"
  let pfav ← get? p "favorites"
  let pg ← get? p "groups"
  let ph ← get? p "holdings"
  let ppt ← get? p "pendingTrades"
  .ok (.obj [("id", jsOr pid (.str fresh)),
    ("name", jsOr pname (.str "未命名账本")),
    ("createdAt", jsOr pca (.str now)),
    ("funds", if isArr pf then pf else .arr []),
    ("favorites", if isArr pfav then pfav else .arr []),
    ("groups", if isArr pg then pg else .arr []),
    ("holdings", if truthy ph && isObjType ph && ¬ isArr ph then ph else .obj []),
    ("pendingTrades", if isArr ppt then ppt else .arr [])])

/-- The map over `data.portfolios` (this module's copy). -/
def repairPortfolios (ids : Nat → String) (now : String) :
    Nat → List JSVal → Except String (List JSVal)
  | _, [] => .ok []
  | k, p :: ps => do
      let p' ← repairPortfolio (ids k) now p
      let rest ← repairPortfolios ids now (if truthy (getF p "id") then k else k + 1) ps
      .ok (p' :: rest)

/-- This module's validator: identical to the other copy except that the
non-object branch writes the empty document literal inline, calling
`createPortfolio('默认账本')` for the single default portfolio. -/
def validateV2Data (ids : Nat → String) (now : String) (data : JSVal) :
    Except String JSVal :=
  if ¬ isObjectLike data then
    .ok (.obj [("version", .num 2),
      ("refreshMs", .num 30000),
      ("portfolios", .arr [createPortfolio (ids 0) now (.str "默认账本")])])
  else do
    let r := getF data "refreshMs"
    let ps := getF data "portfolios"
    let portfolios ←
      if isArr ps && (asArr ps).length > 0 then repairPortfolios ids now 0 (asArr ps)
      else .ok [createPortfolio (ids 0) now (.str "默认账本")]
    .ok (.obj [("version", .num 2),
      ("refreshMs", if numGE r 5000 then r else .num 30000),
      ("portfolios", .arr portfolios)])

end Migration

/-! Basic lemmas about the embedding. -/

namespace JSVal

@[simp] theorem bindE_ok {α β : Type} (a : α) (f : α → Except String β) :
    (Except.ok a >>= f) = f a := rfl

@[simp] theorem bindE_error {α β : Type} (e : String) (f : α → Except String β) :
    ((Except.error e : Except String α) >>= f) = .error e := rfl

theorem get?_ok {v : JSVal} (h1 : v ≠ .null) (h2 : v ≠ .undefined) (k : String) :
    get? v k = .ok (getF v k) := by
  cases v <;> simp_all [get?]

theorem get?_ok_of_truthy {v : JSVal} (h : truthy v = true) (k : String) :
    get? v k = .ok (getF v k) := by
  cases v <;> simp_all [get?, truthy]

theorem memJS_iff {x : JSVal} {l : List JSVal} : memJS x l = true ↔ x ∈ l := by
  simp [memJS, List.any_eq_true]

theorem arrayOf?_ok {v : JSVal} {l : List JSVal} (h : arrayOf? v = .ok l) :
    v = .arr l := by
  cases v <;> simp_all [arrayOf?]

theorem lookupF_setField_self (m : List (String × JSVal)) (k : String) (v : JSVal) :
    lookupF (setField m k v) k = v := by
  induction m with
  | nil => simp [setField, lookupF]
  | cons kv m ih =>
      obtain ⟨k', w⟩ := kv
      by_cases h : k' = k <;> simp [setField, lookupF, h, ih]

theorem lookupF_setField_ne (m : List (String × JSVal)) {k' k : String}
    (h : k' ≠ k) (v : JSVal) : lookupF (setField m k' v) k = lookupF m k := by
  induction m with
  | nil => simp [setField, lookupF, h]
  | cons kv m ih =>
      obtain ⟨k0, w⟩ := kv
      by_cases h0 : k0 = k'
      · subst h0
        simp [setField, lookupF, h]
      · simp only [setField, if_neg h0, lookupF]
        by_cases h1 : k0 = k
        · simp [h1]
        · simp [h1, ih]

theorem mem_setField {m : List (String × JSVal)} {k : String} {v : JSVal}
    {e : String × JSVal} (h : e ∈ setField m k v) : e ∈ m ∨ e = (k, v) := by
  induction m with
  | nil =>
      simp only [setField, List.mem_singleton] at h
      exact .inr h
  | cons kv m ih =>
      obtain ⟨k0, w⟩ := kv
      by_cases h0 : k0 = k
      · subst h0
        simp only [setField, if_pos rfl] at h
        rcases List.mem_cons.mp h with h1 | h1
        · exact .inr h1
        · exact .inl (List.mem_cons_of_mem _ h1)
      · simp only [setField, if_neg h0] at h
        rcases List.mem_cons.mp h with h1 | h1
        · exact .inl (List.mem_cons.mpr (.inl h1))
        · rcases ih h1 with h2 | h2
          · exact .inl (List.mem_cons_of_mem _ h2)
          · exact .inr h2

theorem map_fst_setField_of_mem {m : List (String × JSVal)} {k : String}
    (h : k ∈ m.map Prod.fst) (v : JSVal) :
    (setField m k v).map Prod.fst = m.map Prod.fst := by
  induction m with
  | nil => simp at h
  | cons kv m ih =>
      obtain ⟨k0, w⟩ := kv
      by_cases h0 : k0 = k
      · simp [setField, h0]
      · simp only [List.map_cons, List.mem_cons] at h
        rcases h with h | h
        · exact absurd h.symm h0
        · simp [setField, h0, ih h]

theorem setField_of_not_mem_keys {m : List (String × JSVal)} {k : String}
    (h : ¬ k ∈ m.map Prod.fst) (v : JSVal) : setField m k v = m ++ [(k, v)] := by
  induction m with
  | nil => simp [setField]
  | cons kv m ih =>
      obtain ⟨k0, w⟩ := kv
      simp only [List.map_cons, List.mem_cons, not_or] at h
      have hk : ¬ k0 = k := fun hh => h.1 hh.symm
      simp [setField, hk, ih h.2]

theorem mapCodes_ok_of_truthy {l : List JSVal} (h : ∀ f ∈ l, truthy f = true) :
    Part000.mapCodes l = .ok (l.map fun f => getF f "code") := by
  induction l with
  | nil => simp [Part000.mapCodes]
  | cons f fs ih =>
      simp only [Part000.mapCodes, get?_ok_of_truthy (h f (by simp)), bindE_ok,
        ih fun g hg => h g (by simp [hg]), List.map_cons]

theorem mapCodes_ok_elim {l cs : List JSVal} (h : Part000.mapCodes l = .ok cs) :
    cs = l.map fun f => getF f "code" := by
  induction l generalizing cs with
  | nil => simp_all [Part000.mapCodes]
  | cons f fs ih =>
      simp only [Part000.mapCodes] at h
      cases hf : get? f "code" with
      | error e => rw [hf] at h; simp at h
      | ok c =>
          rw [hf] at h
          cases hfs : Part000.mapCodes fs with
          | error e => rw [hfs] at h; simp at h
          | ok cs' =>
              rw [hfs] at h
              simp only [bindE_ok] at h
              cases h
              have : c = getF f "code" := by
                cases f <;> simp_all [get?]
              simp [this, ih hfs]

end JSVal

/-! Claim C4: characterization of the legacy detector. -/

open JSVal

/-- Spec-side legacy classification, phrased from the spec's policy: the
value is an object, its `version` is not both truthy and at least 2, and
either `funds` is an array or `holdings` is present in any form. -/
def specLegacyCheck (v : JSVal) : Bool :=
  isObjectLike v &&
  !(truthy (getF v "version") && geTwo (getF v "version")) &&
  (isArr (getF v "funds") || getF v "holdings" ≠ JSVal.undefined)

/-- C4: for every value, `isLegacyData` returns true iff the value is an
object whose `version` is not simultaneously truthy and at least 2 and
whose `funds` is an array or whose `holdings` is not `undefined`; in
particular it is false on every non-object and on every object with a
truthy `version` at least 2. -/
theorem C4_isLegacyData_iff_spec :
    ∀ v : JSVal, Part000.isLegacyData v = specLegacyCheck v := by
  intro v
  by_cases h1 : isObjectLike v = true
  · by_cases h2 :
        (truthy (getF v "version") && geTwo (getF v "version")) = true
    · simp [Part000.isLegacyData, specLegacyCheck, h1, h2]
    · simp only [Bool.not_eq_true] at h2
      simp [Part000.isLegacyData, specLegacyCheck, h1, h2]
  · simp only [Bool.not_eq_true] at h1
    simp [Part000.isLegacyData, specLegacyCheck, h1]

/-! Claim C9: the two modules' shared functions are extensionally equal. -/

theorem repairPortfolio_modules_eq (fresh now : String) (p : JSVal) :
    Part000.repairPortfolio fresh now p = Migration.repairPortfolio fresh now p := rfl

theorem repairPortfolios_modules_eq (ids : Nat → String) (now : String)
    (l : List JSVal) : ∀ k,
    Part000.repairPortfolios ids now k l = Migration.repairPortfolios ids now k l := by
  induction l with
  | nil => intro k; rfl
  | cons p ps ih =>
      intro k
      simp only [Part000.repairPortfolios, Migration.repairPortfolios,
        repairPortfolio_modules_eq, ih]

/-- C9: `generateId`, `createPortfolio` and `validateV2Data` of the two
source modules agree on every input once the same entropy and clock
choices are supplied; on non-object input the inlined empty document of
one module equals the other module's `createEmptyV2Data()` result. -/
theorem C9_duplicate_modules_equivalent :
    (∀ c u r, Part000.generateId c u r = Migration.generateId c u r) ∧
    (∀ id now name, Part000.createPortfolio id now name = Migration.createPortfolio id now name) ∧
    (∀ ids now v, Part000.validateV2Data ids now v = Migration.validateV2Data ids now v) := by
  refine ⟨fun c u r => rfl, fun id now name => rfl, fun ids now v => ?_⟩
  unfold Part000.validateV2Data Migration.validateV2Data
  by_cases h : isObjectLike v = true
  · simp only [h, not_true_eq_false, if_false, repairPortfolios_modules_eq]
    rfl
  · simp only [Bool.not_eq_true] at h
    simp only [h, Bool.false_eq_true, not_false_eq_true, if_true]
    rfl

/-! Claim C6: the migrator's output, field by field. -/

/-- Spec-side migrated document, phrased from the spec: version 2 and
exactly one portfolio; `refreshMs` copied when a number at least 5000,
else 30000; `funds`, `favorites`, `groups`, `pendingTrades` carried
verbatim when arrays, else empty; `holdings` carried verbatim when a
non-array object, else empty. -/
def specMigratedDoc (id now : String) (d name : JSVal) : JSVal :=
  .obj [("version", .num 2),
    ("refreshMs",
      match getF d "refreshMs" with
      | .num n => if 5000 ≤ n then .num n else .num 30000
      | _ => .num 30000),
    ("portfolios", .arr [
      .obj [("id", .str id),
            ("name", Part000.defaultedName name),
            ("createdAt", .str now),
            ("funds", if isArr (getF d "funds") then getF d "funds" else .arr []),
            ("favorites", if isArr (getF d "favorites") then getF d "favorites" else .arr []),
            ("groups", if isArr (getF d "groups") then getF d "groups" else .arr []),
            ("holdings", match getF d "holdings" with | .obj fs => .obj fs | _ => .obj []),
            ("pendingTrades", if isArr (getF d "pendingTrades") then getF d "pendingTrades" else .arr [])]])]

/-- C6: on every object input, `migrateToV2` returns exactly the
spec-side document: one portfolio, raw carry-over of the five
collections with per-field type defaults, and the `refreshMs` floor. -/
theorem C6_migrateToV2_spec :
    ∀ (id now : String) (d name : JSVal), isObjectLike d = true →
    Part000.migrateToV2 id now d name = .ok (specMigratedDoc id now d name) := by
  intro id now d name h
  have ht : truthy d = true := ((Bool.and_eq_true _ _).mp h).1
  unfold Part000.migrateToV2 specMigratedDoc
  simp only [get?_ok_of_truthy ht, bindE_ok]
  have h1 : (if Part000.numGE (getF d "refreshMs") 5000 = true
        then getF d "refreshMs" else .num 30000)
      = (match getF d "refreshMs" with
        | .num n => if 5000 ≤ n then JSVal.num n else .num 30000
        | _ => .num 30000) := by
    cases hr : getF d "refreshMs" <;> simp [Part000.numGE]
  have h2 : (if Part000.plainObjCheck (getF d "holdings") = true
        then getF d "holdings" else .obj [])
      = (match getF d "holdings" with
        | .obj fs => JSVal.obj fs
        | _ => .obj []) := by
    cases hh : getF d "holdings" <;>
      simp [Part000.plainObjCheck, truthy, isObjType, isArr]
  rw [h1, h2]

/-! Claim C7: the validator's fresh-document defaults. -/

/-- C7: on every non-object input the validator returns exactly the empty
document built from the same id and timestamp supply, and on every object
input whose `portfolios` is missing, non-array or empty the result holds
exactly one freshly created default portfolio. -/
theorem C7_validate_defaults :
    ∀ (ids : Nat → String) (now : String) (v : JSVal),
    (isObjectLike v = false →
      Part000.validateV2Data ids now v = .ok (Part000.createEmptyV2Data (ids 0) now)) ∧
    (isObjectLike v = true →
      (isArr (getF v "portfolios") = false ∨ asArr (getF v "portfolios") = []) →
      ∃ out, Part000.validateV2Data ids now v = .ok out ∧
        getF out "portfolios" = .arr [Part000.createPortfolio (ids 0) now (.str "默认账本")]) := by
  intro ids now v
  constructor
  · intro h
    unfold Part000.validateV2Data
    simp [h]
  · intro h hp
    unfold Part000.validateV2Data
    have hcond : (isArr (getF v "portfolios")
        && decide ((asArr (getF v "portfolios")).length > 0)) = false := by
      rcases hp with hp | hp
      · simp [hp]
      · simp [hp]
    simp only [h, not_true_eq_false, Bool.false_eq_true, if_false, hcond, bindE_ok]
    exact ⟨_, rfl, rfl⟩

theorem C6_migrateToV2_spec_witness :
    isObjectLike (JSVal.obj [("funds", .arr [.obj [("code", .str "A")]]),
      ("refreshMs", .num 1000)]) = true ∧
    Part000.migrateToV2 "I" "T"
      (.obj [("funds", .arr [.obj [("code", .str "A")]]), ("refreshMs", .num 1000)]) .undefined
      = .ok (specMigratedDoc "I" "T"
          (.obj [("funds", .arr [.obj [("code", .str "A")]]), ("refreshMs", .num 1000)]) .undefined) :=
  ⟨rfl, C6_migrateToV2_spec "I" "T" _ _ rfl⟩

theorem C7_validate_defaults_witness :
    Part000.validateV2Data (fun _ => "u") "T" (.num 7)
      = .ok (Part000.createEmptyV2Data "u" "T") ∧
    (∃ out, Part000.validateV2Data (fun _ => "u") "T" (.obj [("portfolios", .arr [])])
      = .ok out ∧
      getF out "portfolios" = .arr [Part000.createPortfolio "u" "T" (.str "默认账本")]) :=
  ⟨(C7_validate_defaults (fun _ => "u") "T" (.num 7)).1 rfl,
   (C7_validate_defaults (fun _ => "u") "T" (.obj [("portfolios", .arr [])])).2 rfl
     (Or.inr rfl)⟩

/-! Claim C2: totality.  The code does throw on several inputs, so the
claim is settled with an explicit failing family plus the totality that
does hold. -/

/-- C2 counterexample: the validator throws a TypeError on a document
whose portfolios array holds `null`; the merger throws on a null groups
entry, a null funds entry in the portfolio, and a matched group lacking
a `codes` array — refuting totality as claimed. -/
theorem C2_counterexample_throws :
    Part000.validateV2Data (fun _ => "u") "T" (.obj [("portfolios", .arr [.null])])
      = .error "TypeError: cannot read id of null" ∧
    Part000.mergeOldDataToPortfolio (.obj []) (.obj [("groups", .arr [.null])])
      = .error "TypeError: cannot read codes of null" ∧
    Part000.mergeOldDataToPortfolio (.obj [("funds", .arr [.null])]) (.obj [])
      = .error "TypeError: cannot read code of null" ∧
    Part000.mergeOldDataToPortfolio
      (.obj [("groups", .arr [.obj [("id", .num 1)]])])
      (.obj [("groups", .arr [.obj [("id", .num 1)]])])
      = .error "TypeError: not iterable" :=
  ⟨rfl, rfl, rfl, rfl⟩

/-- The value the validator's portfolio map produces for one entry, as an
explicit object literal. -/
def repairedPortfolio (fresh now : String) (p : JSVal) : JSVal :=
  .obj [
    ("id", jsOr (getF p "id") (.str fresh)),
    ("name", jsOr (getF p "name") (.str "未命名账本")),
    ("createdAt", jsOr (getF p "createdAt") (.str now)),
    ("funds", if isArr (getF p "funds") then getF p "funds" else .arr []),
    ("favorites", if isArr (getF p "favorites") then getF p "favorites" else .arr []),
    ("groups", if isArr (getF p "groups") then getF p "groups" else .arr []),
    ("holdings", if Part000.plainObjCheck (getF p "holdings") then getF p "holdings" else .obj []),
    ("pendingTrades", if isArr (getF p "pendingTrades") then getF p "pendingTrades" else .arr [])]

theorem repairPortfolio_ok {p : JSVal} (h1 : p ≠ .null) (h2 : p ≠ .undefined)
    (fresh now : String) :
    Part000.repairPortfolio fresh now p = .ok (repairedPortfolio fresh now p) := by
  unfold Part000.repairPortfolio repairedPortfolio
  simp only [get?_ok h1 h2, bindE_ok, Part000.plainObjCheck]

theorem repairPortfolios_ok_of_nonnullish (ids : Nat → String) (now : String)
    (l : List JSVal) (h : ∀ p ∈ l, p ≠ .null ∧ p ≠ .undefined) :
    ∀ k, ∃ l', Part000.repairPortfolios ids now k l = .ok l' := by
  induction l with
  | nil => intro k; exact ⟨[], rfl⟩
  | cons p ps ih =>
      intro k
      have hp := h p (by simp)
      obtain ⟨l', hl'⟩ := ih (fun q hq => h q (by simp [hq]))
        (if truthy (getF p "id") then k else k + 1)
      refine ⟨repairedPortfolio (ids k) now p :: l', ?_⟩
      simp only [Part000.repairPortfolios, repairPortfolio_ok hp.1 hp.2, bindE_ok, hl']

/-- The document the migrator returns, as an explicit literal in terms of
the source's own field checks. -/
def migratedDoc (id now : String) (d name : JSVal) : JSVal :=
  .obj [("version", .num 2),
    ("refreshMs", if Part000.numGE (getF d "refreshMs") 5000 then getF d "refreshMs" else .num 30000),
    ("portfolios", .arr [
      .obj [("id", .str id),
            ("name", Part000.defaultedName name),
            ("createdAt", .str now),
            ("funds", if isArr (getF d "funds") then getF d "funds" else .arr []),
            ("favorites", if isArr (getF d "favorites") then getF d "favorites" else .arr []),
            ("groups", if isArr (getF d "groups") then getF d "groups" else .arr []),
            ("holdings", if Part000.plainObjCheck (getF d "holdings") then getF d "holdings" else .obj []),
            ("pendingTrades", if isArr (getF d "pendingTrades") then getF d "pendingTrades" else .arr [])]])]

/-- C2 amended: every operation is total except where a TypeError is
forced — the validator returns a document whenever no portfolios entry is
nullish, the migrator returns a document exactly on non-nullish input,
and the merger returns its first argument whenever either argument is
falsy. -/
theorem C2_amended_totality :
    (∀ (ids : Nat → String) (now : String) (x : JSVal),
      (∀ p ∈ asArr (getF x "portfolios"), p ≠ .null ∧ p ≠ .undefined) →
      ∃ out, Part000.validateV2Data ids now x = .ok out) ∧
    (∀ (id now : String) (d name : JSVal), d ≠ .null → d ≠ .undefined →
      ∃ out, Part000.migrateToV2 id now d name = .ok out) ∧
    (∀ p d : JSVal, ¬ (truthy p = true ∧ truthy d = true) →
      Part000.mergeOldDataToPortfolio p d = .ok p) := by
  refine ⟨?_, ?_, ?_⟩
  · intro ids now x h
    unfold Part000.validateV2Data
    by_cases hobj : isObjectLike x = true
    · simp only [hobj, not_true_eq_false, Bool.false_eq_true, if_false]
      by_cases hcond : (isArr (getF x "portfolios")
          && decide ((asArr (getF x "portfolios")).length > 0)) = true
      · obtain ⟨l', hl'⟩ := repairPortfolios_ok_of_nonnullish ids now _ h 0
        simp only [hcond, if_true, hl', bindE_ok]
        exact ⟨_, rfl⟩
      · simp only [Bool.not_eq_true] at hcond
        simp only [hcond, Bool.false_eq_true, if_false, bindE_ok]
        exact ⟨_, rfl⟩
    · simp only [Bool.not_eq_true] at hobj
      simp [hobj]
  · intro id now d name h1 h2
    refine ⟨migratedDoc id now d name, ?_⟩
    unfold Part000.migrateToV2 migratedDoc
    simp only [get?_ok h1 h2, bindE_ok]
  · intro p d h
    unfold Part000.mergeOldDataToPortfolio
    cases hp : truthy p <;> cases hd : truthy d <;> simp_all

theorem C2_amended_totality_witness :
    (∃ out, Part000.validateV2Data (fun _ => "u") "T"
      (.obj [("portfolios", .arr [.obj []])]) = .ok out) ∧
    (∃ out, Part000.migrateToV2 "I" "T" (.num 3) .undefined = .ok out) ∧
    Part000.mergeOldDataToPortfolio .null (.obj []) = .ok .null :=
  ⟨C2_amended_totality.1 (fun _ => "u") "T" _
      (by
        intro p hp
        cases hp with
        | head => exact ⟨by decide, by decide⟩
        | tail _ h => exact absurd h (List.not_mem_nil p)),
   C2_amended_totality.2.1 "I" "T" (.num 3) .undefined (by decide) (by decide),
   C2_amended_totality.2.2 .null (.obj []) (by decide)⟩

/-! Claim C3: the validator is idempotent. -/

theorem jsOr_str_truthy {a : JSVal} {s : String} (hs : s ≠ "") :
    truthy (jsOr a (.str s)) = true := by
  unfold jsOr
  split
  · assumption
  · simp [truthy, hs]

theorem jsOr_of_truthy {a : JSVal} (b : JSVal) (h : truthy a = true) :
    jsOr a b = a := by
  simp [jsOr, h]

theorem isArr_defaulted (x : JSVal) : isArr (if isArr x then x else .arr []) = true := by
  split
  · assumption
  · rfl

theorem plainObj_defaulted (x : JSVal) :
    Part000.plainObjCheck (if Part000.plainObjCheck x then x else .obj []) = true := by
  split
  · assumption
  · rfl

/-- A portfolio value the validator's repair map leaves unchanged for
every id and timestamp supply. -/
def IsRepaired (p : JSVal) : Prop := ∀ f n, repairedPortfolio f n p = p

theorem repairedPortfolio_isRepaired {f n : String} (hf : f ≠ "") (hn : n ≠ "")
    (p : JSVal) : IsRepaired (repairedPortfolio f n p) := by
  intro f2 n2
  set R := repairedPortfolio f n p with hR
  have hid : getF R "id" = jsOr (getF p "id") (.str f) := by rw [hR]; rfl
  have hname : getF R "name" = jsOr (getF p "name") (.str "未命名账本") := by
    rw [hR]; rfl
  have hca : getF R "createdAt" = jsOr (getF p "createdAt") (.str n) := by
    rw [hR]; rfl
  have hfu : getF R "funds"
      = (if isArr (getF p "funds") then getF p "funds" else .arr []) := by
    rw [hR]; rfl
  have hfa : getF R "favorites"
      = (if isArr (getF p "favorites") then getF p "favorites" else .arr []) := by
    rw [hR]; rfl
  have hgr : getF R "groups"
      = (if isArr (getF p "groups") then getF p "groups" else .arr []) := by
    rw [hR]; rfl
  have hho : getF R "holdings"
      = (if Part000.plainObjCheck (getF p "holdings") then getF p "holdings" else .obj []) := by
    rw [hR]; rfl
  have hpt : getF R "pendingTrades"
      = (if isArr (getF p "pendingTrades") then getF p "pendingTrades" else .arr []) := by
    rw [hR]; rfl
  conv_lhs => unfold repairedPortfolio
  rw [hid, hname, hca, hfu, hfa, hgr, hho, hpt]
  rw [jsOr_of_truthy _ (jsOr_str_truthy hf),
    jsOr_of_truthy _ (jsOr_str_truthy (by decide)),
    jsOr_of_truthy _ (jsOr_str_truthy hn),
    if_pos (isArr_defaulted (getF p "funds")),
    if_pos (isArr_defaulted (getF p "favorites")),
    if_pos (isArr_defaulted (getF p "groups")),
    if_pos (plainObj_defaulted (getF p "holdings")),
    if_pos (isArr_defaulted (getF p "pendingTrades"))]
  rw [hR]
  rfl

theorem createPortfolio_isRepaired {id now : String} (hid : id ≠ "") (hn : now ≠ "")
    (name : JSVal) : IsRepaired (Part000.createPortfolio id now name) := by
  intro f2 n2
  have h1 : truthy (JSVal.str id) = true := by simp [truthy, hid]
  have h2 : truthy (jsOr name (.str "新账本")) = true := jsOr_str_truthy (by decide)
  have h3 : truthy (JSVal.str now) = true := by simp [truthy, hn]
  unfold Part000.createPortfolio repairedPortfolio
  simp [getF, lookupF, jsOr_of_truthy _ h1, jsOr_of_truthy _ h2, jsOr_of_truthy _ h3,
    isArr, Part000.plainObjCheck, truthy, isObjType]

theorem repairPortfolios_ok_cons {ids : Nat → String} {now : String} {k : Nat}
    {p : JSVal} {ps : List JSVal} {l' : List JSVal}
    (h : Part000.repairPortfolios ids now k (p :: ps) = .ok l') :
    p ≠ .null ∧ p ≠ .undefined ∧
    ∃ rest, l' = repairedPortfolio (ids k) now p :: rest ∧
      Part000.repairPortfolios ids now
        (if truthy (getF p "id") then k else k + 1) ps = .ok rest := by
  by_cases h1 : p = .null
  · subst h1
    simp [Part000.repairPortfolios, Part000.repairPortfolio, get?] at h
  by_cases h2 : p = .undefined
  · subst h2
    simp [Part000.repairPortfolios, Part000.repairPortfolio, get?] at h
  refine ⟨h1, h2, ?_⟩
  simp only [Part000.repairPortfolios, repairPortfolio_ok h1 h2, bindE_ok] at h
  cases hrest : Part000.repairPortfolios ids now
      (if truthy (getF p "id") then k else k + 1) ps with
  | error e => rw [hrest] at h; simp at h
  | ok rest =>
      rw [hrest] at h
      simp only [bindE_ok, Except.ok.injEq] at h
      exact ⟨rest, h.symm, rfl⟩

theorem repairPortfolios_elements {ids : Nat → String} {now : String}
    (hids : ∀ j, ids j ≠ "") (hn : now ≠ "") :
    ∀ (l : List JSVal) (k : Nat) (l' : List JSVal),
    Part000.repairPortfolios ids now k l = .ok l' → ∀ q ∈ l', IsRepaired q := by
  intro l
  induction l with
  | nil =>
      intro k l' h q hq
      simp only [Part000.repairPortfolios, Except.ok.injEq] at h
      subst h
      exact absurd hq (List.not_mem_nil q)
  | cons p ps ih =>
      intro k l' h q hq
      obtain ⟨h1, h2, rest, rfl, hrest⟩ := repairPortfolios_ok_cons h
      rcases List.mem_cons.mp hq with rfl | hq
      · exact repairedPortfolio_isRepaired (hids k) hn p
      · exact ih _ _ hrest q hq

theorem repairPortfolios_length {ids : Nat → String} {now : String} :
    ∀ (l : List JSVal) (k : Nat) (l' : List JSVal),
    Part000.repairPortfolios ids now k l = .ok l' → l'.length = l.length := by
  intro l
  induction l with
  | nil =>
      intro k l' h
      simp only [Part000.repairPortfolios, Except.ok.injEq] at h
      subst h; rfl
  | cons p ps ih =>
      intro k l' h
      obtain ⟨h1, h2, rest, rfl, hrest⟩ := repairPortfolios_ok_cons h
      simp [ih _ _ hrest]

theorem repairPortfolios_of_isRepaired :
    ∀ (l : List JSVal), (∀ q ∈ l, IsRepaired q) →
    ∀ (ids2 : Nat → String) (now2 : String) (k : Nat),
    Part000.repairPortfolios ids2 now2 k l = .ok l := by
  intro l
  induction l with
  | nil => intro _ _ _ _; rfl
  | cons p ps ih =>
      intro h ids2 now2 k
      have hp : IsRepaired p := h p (by simp)
      have hobj : ∃ fs, p = .obj fs := ⟨_, (hp "x" "y").symm⟩
      obtain ⟨fs, hfs⟩ := hobj
      have h1 : p ≠ .null := by rw [hfs]; simp
      have h2 : p ≠ .undefined := by rw [hfs]; simp
      simp only [Part000.repairPortfolios, repairPortfolio_ok h1 h2, bindE_ok,
        hp (ids2 k) now2, ih (fun q hq => h q (by simp [hq])) ids2 now2]

theorem numGE_refresh_idem (r : JSVal) :
    Part000.numGE (if Part000.numGE r 5000 then r else .num 30000) 5000 = true := by
  split
  · assumption
  · rfl

theorem validate_fixed_doc {R : JSVal} {L : List JSVal}
    (hR : Part000.numGE R 5000 = true) (hL : L ≠ []) (hrep : ∀ q ∈ L, IsRepaired q)
    (ids2 : Nat → String) (now2 : String) :
    Part000.validateV2Data ids2 now2
      (.obj [("version", .num 2), ("refreshMs", R), ("portfolios", .arr L)])
    = .ok (.obj [("version", .num 2), ("refreshMs", R), ("portfolios", .arr L)]) := by
  unfold Part000.validateV2Data
  have hgr : getF (JSVal.obj [("version", .num 2), ("refreshMs", R), ("portfolios", .arr L)])
      "refreshMs" = R := rfl
  have hgp : getF (JSVal.obj [("version", .num 2), ("refreshMs", R), ("portfolios", .arr L)])
      "portfolios" = .arr L := rfl
  have hcond : (isArr (JSVal.arr L) && decide ((asArr (JSVal.arr L)).length > 0)) = true := by
    simp [isArr, asArr, List.length_pos, hL]
  rw [if_neg (by simp [isObjectLike, truthy, isObjType])]
  rw [hgr, hgp, if_pos hcond, show asArr (JSVal.arr L) = L from rfl,
    repairPortfolios_of_isRepaired L hrep ids2 now2 0]
  simp only [bindE_ok, if_pos hR]

/-- C3: validation is idempotent — whenever a first application returns a
document (under any id supply producing non-empty ids and a non-empty
timestamp), a second application with any supply returns that document
unchanged: nothing is re-defaulted and no id or timestamp regenerated. -/
theorem C3_validate_idempotent :
    ∀ (ids : Nat → String) (now : String) (x out : JSVal),
    (∀ k, ids k ≠ "") → now ≠ "" →
    Part000.validateV2Data ids now x = .ok out →
    ∀ (ids2 : Nat → String) (now2 : String),
    Part000.validateV2Data ids2 now2 out = .ok out := by
  intro ids now x out hids hn h ids2 now2
  unfold Part000.validateV2Data at h
  by_cases hobj : isObjectLike x = true
  · simp only [hobj, not_true_eq_false, Bool.false_eq_true, if_false] at h
    by_cases hcond : (isArr (getF x "portfolios")
        && decide ((asArr (getF x "portfolios")).length > 0)) = true
    · simp only [hcond, if_true] at h
      cases hl : Part000.repairPortfolios ids now 0 (asArr (getF x "portfolios")) with
      | error e => rw [hl] at h; simp at h
      | ok L =>
          rw [hl] at h
          simp only [bindE_ok, Except.ok.injEq] at h
          subst h
          have hlen := repairPortfolios_length _ 0 L hl
          have hpos : L ≠ [] := by
            have := (Bool.and_eq_true _ _).mp hcond
            have hgt := of_decide_eq_true this.2
            intro hnil
            rw [hnil] at hlen
            simp only [List.length_nil] at hlen
            omega
          exact validate_fixed_doc (numGE_refresh_idem _) hpos
            (repairPortfolios_elements hids hn _ 0 L hl) ids2 now2
    · simp only [Bool.not_eq_true] at hcond
      simp only [hcond, Bool.false_eq_true, if_false, bindE_ok, Except.ok.injEq] at h
      subst h
      exact validate_fixed_doc (numGE_refresh_idem _) (by simp)
        (by
          intro q hq
          rcases List.mem_singleton.mp hq with rfl
          exact createPortfolio_isRepaired (hids 0) hn _) ids2 now2
  · simp only [Bool.not_eq_true] at hobj
    simp only [hobj, Bool.false_eq_true, not_false_eq_true, if_true, Except.ok.injEq] at h
    subst h
    have hfix : Part000.createEmptyV2Data (ids 0) now
        = .obj [("version", .num 2), ("refreshMs", .num 30000),
            ("portfolios", .arr [Part000.createPortfolio (ids 0) now (.str "默认账本")])] := rfl
    rw [hfix]
    exact validate_fixed_doc (by decide) (by simp)
      (by
        intro q hq
        rcases List.mem_singleton.mp hq with rfl
        exact createPortfolio_isRepaired (hids 0) hn _) ids2 now2

/-- A concrete validated document, for exercising idempotence. -/
def c3Out : JSVal :=
  .obj [("version", .num 2), ("refreshMs", .num 30000),
    ("portfolios", .arr [.obj [("id", .str "u"), ("name", .str "n"),
      ("createdAt", .str "T"), ("funds", .arr []), ("favorites", .arr []),
      ("groups", .arr []), ("holdings", .obj []), ("pendingTrades", .arr [])]])]

theorem C3_validate_idempotent_witness :
    Part000.validateV2Data (fun _ => "w") "S" c3Out = .ok c3Out := by
  have hids : ∀ k : Nat, (fun _ : Nat => "u") k ≠ "" := by
    intro k
    show "u" ≠ ""
    decide
  exact C3_validate_idempotent (fun _ => "u") "T"
    (.obj [("portfolios", .arr [.obj [("name", .str "n")]])]) c3Out
    hids (by decide) rfl (fun _ => "w") "S"

/-! Inversion of a successful merge into its intermediate collections. -/

theorem lookup_spreadFields (p : JSVal) (k : String) :
    lookupF (spreadFields p) k = getF p k := by
  cases p <;> rfl

theorem merge_of_falsy {p d : JSVal} (h : ¬ (truthy p = true ∧ truthy d = true)) :
    Part000.mergeOldDataToPortfolio p d = .ok p := by
  unfold Part000.mergeOldDataToPortfolio
  cases hp : truthy p <;> cases hd : truthy d <;> simp_all

theorem merge_ok_inv {p d out : JSVal}
    (hp : truthy p = true) (hd : truthy d = true)
    (h : Part000.mergeOldDataToPortfolio p d = .ok out) :
    ∃ (pfunds existingCodes lfunds allCodes pfav lfav pgroups lgroups
        mergedGroups ppt lpt : List JSVal),
      arrayOf? (jsOr (getF p "funds") (.arr [])) = .ok pfunds ∧
      Part000.mapCodes pfunds = .ok existingCodes ∧
      arrayOf? (jsOr (getF d "funds") (.arr [])) = .ok lfunds ∧
      Part000.mapCodes (pfunds ++ lfunds.filter fun f =>
        truthy f && truthy (getF f "code")
          && ¬ memJS (getF f "code") existingCodes) = .ok allCodes ∧
      spreadArr? (jsOr (getF p "favorites") (.arr [])) = .ok pfav ∧
      spreadArr? (jsOr (getF d "favorites") (.arr [])) = .ok lfav ∧
      spreadArr? (jsOr (getF p "groups") (.arr [])) = .ok pgroups ∧
      arrayOf? (jsOr (getF d "groups") (.arr [])) = .ok lgroups ∧
      Part000.mergeGroups allCodes pgroups lgroups = .ok mergedGroups ∧
      arrayOf? (jsOr (getF p "pendingTrades") (.arr [])) = .ok ppt ∧
      arrayOf? (jsOr (getF d "pendingTrades") (.arr [])) = .ok lpt ∧
      out = .obj (setField (setField (setField (setField (setField (spreadFields p)
        "funds" (.arr (pfunds ++ lfunds.filter fun f =>
          truthy f && truthy (getF f "code")
            && ¬ memJS (getF f "code") existingCodes)))
        "favorites" (.arr ((firstDedup (pfav ++ lfav)).filter fun c => memJS c allCodes)))
        "groups" (.arr mergedGroups))
        "holdings" (.obj (Part000.mergeHoldings allCodes (getF p "holdings") (getF d "holdings"))))
        "pendingTrades" (.arr ((Part000.insertTrades allCodes
          (Part000.insertTrades allCodes [] ppt) lpt).map Prod.snd))) := by
  unfold Part000.mergeOldDataToPortfolio at h
  split at h
  · rename_i hcond
    exfalso
    simp [hp, hd] at hcond
  cases e1 : arrayOf? (jsOr (getF p "funds") (.arr [])) with
  | error e => rw [e1] at h; simp at h
  | ok pfunds =>
  rw [e1] at h; simp only [bindE_ok] at h
  cases e2 : Part000.mapCodes pfunds with
  | error e => rw [e2] at h; simp at h
  | ok existingCodes =>
  rw [e2] at h; simp only [bindE_ok] at h
  cases e3 : arrayOf? (jsOr (getF d "funds") (.arr [])) with
  | error e => rw [e3] at h; simp at h
  | ok lfunds =>
  rw [e3] at h; simp only [bindE_ok] at h
  cases e4 : Part000.mapCodes (pfunds ++ lfunds.filter fun f =>
      truthy f && truthy (getF f "code")
        && ¬ memJS (getF f "code") existingCodes) with
  | error e => rw [e4] at h; simp at h
  | ok allCodes =>
  rw [e4] at h; simp only [bindE_ok] at h
  cases e5 : spreadArr? (jsOr (getF p "favorites") (.arr [])) with
  | error e => rw [e5] at h; simp at h
  | ok pfav =>
  rw [e5] at h; simp only [bindE_ok] at h
  cases e6 : spreadArr? (jsOr (getF d "favorites") (.arr [])) with
  | error e => rw [e6] at h; simp at h
  | ok lfav =>
  rw [e6] at h; simp only [bindE_ok] at h
  cases e7 : spreadArr? (jsOr (getF p "groups") (.arr [])) with
  | error e => rw [e7] at h; simp at h
  | ok pgroups =>
  rw [e7] at h; simp only [bindE_ok] at h
  cases e8 : arrayOf? (jsOr (getF d "groups") (.arr [])) with
  | error e => rw [e8] at h; simp at h
  | ok lgroups =>
  rw [e8] at h; simp only [bindE_ok] at h
  cases e9 : Part000.mergeGroups allCodes pgroups lgroups with
  | error e => rw [e9] at h; simp at h
  | ok mergedGroups =>
  rw [e9] at h; simp only [bindE_ok] at h
  cases e10 : arrayOf? (jsOr (getF p "pendingTrades") (.arr [])) with
  | error e => rw [e10] at h; simp at h
  | ok ppt =>
  rw [e10] at h; simp only [bindE_ok] at h
  cases e11 : arrayOf? (jsOr (getF d "pendingTrades") (.arr [])) with
  | error e => rw [e11] at h; simp at h
  | ok lpt =>
  rw [e11] at h; simp only [bindE_ok, Except.ok.injEq] at h
  exact ⟨pfunds, existingCodes, lfunds, allCodes, pfav, lfav, pgroups, lgroups,
    mergedGroups, ppt, lpt, rfl, e2, rfl, e4, rfl, rfl, rfl, rfl, e9, rfl, rfl, h.symm⟩

theorem merge_frame {p d out : JSVal} (hp : truthy p = true) (hd : truthy d = true)
    (h : Part000.mergeOldDataToPortfolio p d = .ok out) :
    ∀ k, ¬ k ∈ (["funds", "favorites", "groups", "holdings", "pendingTrades"] : List String) →
    getF out k = getF p k := by
  obtain ⟨pf, ec, lf, ac, pfav, lfav, pg, lg, mg, ppt, lpt,
    _, _, _, _, _, _, _, _, _, _, _, hout⟩ := merge_ok_inv hp hd h
  intro k hk
  simp only [List.mem_cons, List.not_mem_nil, or_false, not_or] at hk
  obtain ⟨k1, k2, k3, k4, k5⟩ := hk
  rw [hout]
  show lookupF _ k = getF p k
  rw [lookupF_setField_ne _ (fun hh => k5 hh.symm) _,
    lookupF_setField_ne _ (fun hh => k4 hh.symm) _,
    lookupF_setField_ne _ (fun hh => k3 hh.symm) _,
    lookupF_setField_ne _ (fun hh => k2 hh.symm) _,
    lookupF_setField_ne _ (fun hh => k1 hh.symm) _,
    lookup_spreadFields]

/-- C8: the merger returns its first argument untouched when either
argument is falsy, and on success every field outside the five merged
collections — `id`, `name`, `createdAt` and any extra field — carries the
input portfolio's value through the shallow overlay. -/
theorem C8_merge_frame_and_falsy :
    ∀ p d : JSVal,
    (¬ (truthy p = true ∧ truthy d = true) →
      Part000.mergeOldDataToPortfolio p d = .ok p) ∧
    (∀ out, truthy p = true → truthy d = true →
      Part000.mergeOldDataToPortfolio p d = .ok out →
      ∀ k, ¬ k ∈ (["funds", "favorites", "groups", "holdings", "pendingTrades"] : List String) →
      getF out k = getF p k) :=
  fun _ _ => ⟨merge_of_falsy, fun _ hp hd h => merge_frame hp hd h⟩

/-- The merge of a portfolio carrying an extra field, evaluated. -/
def c8P : JSVal :=
  .obj [("id", .str "p1"), ("extra", .str "keep"),
    ("funds", .arr [.obj [("code", .str "A")]])]

def c8D : JSVal := .obj [("funds", .arr [.obj [("code", .str "B")]])]

def c8Out : JSVal :=
  .obj [("id", .str "p1"), ("extra", .str "keep"),
    ("funds", .arr [.obj [("code", .str "A")], .obj [("code", .str "B")]]),
    ("favorites", .arr []), ("groups", .arr []), ("holdings", .obj []),
    ("pendingTrades", .arr [])]

theorem C8_merge_frame_and_falsy_witness :
    Part000.mergeOldDataToPortfolio .undefined (.obj []) = .ok .undefined ∧
    Part000.mergeOldDataToPortfolio c8P c8D = .ok c8Out ∧
    getF c8Out "extra" = getF c8P "extra" ∧ getF c8Out "id" = getF c8P "id" :=
  ⟨(C8_merge_frame_and_falsy .undefined (.obj [])).1 (by decide),
   rfl,
   (C8_merge_frame_and_falsy c8P c8D).2 c8Out rfl rfl rfl "extra" (by decide),
   (C8_merge_frame_and_falsy c8P c8D).2 c8Out rfl rfl rfl "id" (by decide)⟩

/-! Claim C10: the validator rebuilds documents and portfolios with
exactly the specified fields, dropping extras. -/

theorem repairPortfolios_keys {ids : Nat → String} {now : String} :
    ∀ (l : List JSVal) (k : Nat) (l' : List JSVal),
    Part000.repairPortfolios ids now k l = .ok l' →
    ∀ q ∈ l', keys q = ["id", "name", "createdAt", "funds", "favorites",
      "groups", "holdings", "pendingTrades"] := by
  intro l
  induction l with
  | nil =>
      intro k l' h q hq
      simp only [Part000.repairPortfolios, Except.ok.injEq] at h
      subst h
      exact absurd hq (List.not_mem_nil q)
  | cons p ps ih =>
      intro k l' h q hq
      obtain ⟨h1, h2, rest, rfl, hrest⟩ := repairPortfolios_ok_cons h
      rcases List.mem_cons.mp hq with rfl | hq
      · rfl
      · exact ih _ _ hrest q hq

/-- C10: on every object input the validated document carries exactly
`version`, `refreshMs`, `portfolios`, and every output portfolio exactly
the eight portfolio fields — extra input fields are dropped — whereas the
merger preserves fields outside the five merged collections. -/
theorem C10_validator_exact_fields :
    (∀ (ids : Nat → String) (now : String) (x out : JSVal),
      isObjectLike x = true →
      Part000.validateV2Data ids now x = .ok out →
      keys out = ["version", "refreshMs", "portfolios"] ∧
      ∀ q ∈ asArr (getF out "portfolios"),
        keys q = ["id", "name", "createdAt", "funds", "favorites", "groups",
          "holdings", "pendingTrades"]) ∧
    (∀ p d out : JSVal, truthy p = true → truthy d = true →
      Part000.mergeOldDataToPortfolio p d = .ok out →
      ∀ k, ¬ k ∈ (["funds", "favorites", "groups", "holdings", "pendingTrades"] : List String) →
      getF out k = getF p k) := by
  constructor
  · intro ids now x out hobj h
    unfold Part000.validateV2Data at h
    simp only [hobj, not_true_eq_false, Bool.false_eq_true, if_false] at h
    by_cases hcond : (isArr (getF x "portfolios")
        && decide ((asArr (getF x "portfolios")).length > 0)) = true
    · simp only [hcond, if_true] at h
      cases hl : Part000.repairPortfolios ids now 0 (asArr (getF x "portfolios")) with
      | error e => rw [hl] at h; simp at h
      | ok L =>
          rw [hl] at h
          simp only [bindE_ok, Except.ok.injEq] at h
          subst h
          refine ⟨rfl, ?_⟩
          intro q hq
          exact repairPortfolios_keys _ 0 L hl q hq
    · simp only [Bool.not_eq_true] at hcond
      simp only [hcond, Bool.false_eq_true, if_false, bindE_ok, Except.ok.injEq] at h
      subst h
      refine ⟨rfl, ?_⟩
      intro q hq
      have hq' : q ∈ [Part000.createPortfolio (ids 0) now (.str "默认账本")] := hq
      rcases List.mem_singleton.mp hq' with rfl
      rfl
  · intro p d out hp hd h
    exact merge_frame hp hd h

/-- A validated document for a portfolio input with extra fields. -/
def c10Out : JSVal :=
  .obj [("version", .num 2), ("refreshMs", .num 30000),
    ("portfolios", .arr [.obj [("id", .str "i"), ("name", .str "未命名账本"),
      ("createdAt", .str "T"), ("funds", .arr []), ("favorites", .arr []),
      ("groups", .arr []), ("holdings", .obj []), ("pendingTrades", .arr [])]])]

theorem C10_validator_exact_fields_witness :
    Part000.validateV2Data (fun _ => "u") "T"
      (.obj [("x", .num 1), ("portfolios", .arr [.obj [("id", .str "i"), ("zz", .num 9)]])])
      = .ok c10Out ∧
    (keys c10Out = ["version", "refreshMs", "portfolios"] ∧
      ∀ q ∈ asArr (getF c10Out "portfolios"),
        keys q = ["id", "name", "createdAt", "funds", "favorites", "groups",
          "holdings", "pendingTrades"]) ∧
    getF c8Out "createdAt" = getF c8P "createdAt" :=
  ⟨rfl,
   C10_validator_exact_fields.1 (fun _ => "u") "T"
     (.obj [("x", .num 1), ("portfolios", .arr [.obj [("id", .str "i"), ("zz", .num 9)]])])
     c10Out rfl rfl,
   C10_validator_exact_fields.2 c8P c8D c8Out rfl rfl rfl "createdAt" (by decide)⟩

/-! Claim C5: the pending-trade merge, characterized from the spec's
description of the deduplication map. -/

/-- Spec-side key content of a trade: the `id` when truthy, otherwise
the tuple (fundCode, type, date, share, amount, isAfter3pm) with missing
fields as the empty string. -/
def specKeyData (t : JSVal) :
    Sum JSVal (JSVal × JSVal × JSVal × JSVal × JSVal × Bool) :=
  if truthy (getF t "id") then .inl (getF t "id")
  else .inr (jsOr (getF t "fundCode") (.str ""), jsOr (getF t "type") (.str ""),
    jsOr (getF t "date") (.str ""), jsOr (getF t "share") (.str ""),
    jsOr (getF t "amount") (.str ""), truthy (getF t "isAfter3pm"))

/-- Trades whose key has not occurred earlier (`seen` keys, then earlier
list elements), in order: the insertion order of the deduplication map. -/
def freshKeyFilter (key : JSVal → String) : List String → List JSVal → List JSVal
  | _, [] => []
  | seen, t :: ts =>
      if key t ∈ seen then freshKeyFilter key seen ts
      else t :: freshKeyFilter key (seen ++ [key t]) ts

/-- The last trade of the list carrying the given key: the map's final
value for that key (later insertions overwrite earlier ones). -/
def lastWithKey (key : JSVal → String) (k : String) (C : List JSVal) : JSVal :=
  (C.filter fun t => key t = k).getLastD .undefined

/-- Spec-side merged pending-trade list: positions follow the first
occurrence of each key — the portfolio's retained trades in their
original order, then the genuinely new legacy trades — and each position
carries the last trade inserted under that key, so a legacy trade
overwrites a same-key portfolio trade. -/
def specPendingOrder (key : JSVal → String) (P L : List JSVal) : List JSVal :=
  (freshKeyFilter key [] (P ++ L)).map fun t => lastWithKey key (key t) (P ++ L)

/-- The codes of the merged portfolio's funds, read off the output. -/
def outFundCodes (out : JSVal) : List JSVal :=
  (asArr (getF out "funds")).map fun f => getF f "code"

/-- The bare key-insert fold that `insertTrades` performs on the trades
that pass its retention test. -/
def foldIns (key : JSVal → String) :
    List (String × JSVal) → List JSVal → List (String × JSVal)
  | m, [] => m
  | m, t :: ts => foldIns key (setField m (key t) t) ts

theorem insertTrades_eq_foldIns (ac : List JSVal) :
    ∀ (ts : List JSVal) (m : List (String × JSVal)),
    Part000.insertTrades ac m ts
      = foldIns Part000.keyOf m
          (ts.filter fun t => truthy t && memJS (getF t "fundCode") ac) := by
  intro ts
  induction ts with
  | nil => intro m; rfl
  | cons t ts ih =>
      intro m
      simp only [Part000.insertTrades, List.filter_cons]
      by_cases h : (truthy t && memJS (getF t "fundCode") ac) = true
      · simp only [h, if_true, ih, foldIns]
      · simp only [Bool.not_eq_true] at h
        simp only [h, Bool.false_eq_true, if_false, ih]

theorem foldIns_append (key : JSVal → String) :
    ∀ (l1 l2 : List JSVal) (m : List (String × JSVal)),
    foldIns key m (l1 ++ l2) = foldIns key (foldIns key m l1) l2 := by
  intro l1
  induction l1 with
  | nil => intro l2 m; rfl
  | cons t ts ih =>
      intro l2 m
      simp only [List.cons_append, List.append_eq, foldIns, ih]

theorem freshKeyFilter_concat (key : JSVal → String) (t : JSVal) :
    ∀ (C : List JSVal) (s : List String),
    freshKeyFilter key s (C ++ [t])
      = freshKeyFilter key s C
        ++ (if key t ∈ s ∨ key t ∈ C.map key then [] else [t]) := by
  intro C
  induction C with
  | nil =>
      intro s
      by_cases hs : key t ∈ s
      · simp [freshKeyFilter, hs]
      · simp [freshKeyFilter, hs]
  | cons c cs ih =>
      intro s
      simp only [List.cons_append, List.append_eq, freshKeyFilter]
      by_cases hc : key c ∈ s
      · rw [if_pos hc, if_pos hc, ih s, List.map_cons]
        congr 1
        by_cases ht : key t = key c
        · rw [if_pos (Or.inl (ht ▸ hc)), if_pos (Or.inl (ht ▸ hc))]
        · congr 1
          simp [List.mem_cons, ht]
      · rw [if_neg hc, if_neg hc, ih (s ++ [key c]), List.map_cons]
        simp only [List.cons_append]
        congr 2
        simp [List.mem_append, List.mem_cons, or_assoc]
      
theorem lastWithKey_concat (key : JSVal → String) (k : String) (C : List JSVal)
    (t : JSVal) :
    lastWithKey key k (C ++ [t])
      = if key t = k then t else lastWithKey key k C := by
  unfold lastWithKey
  rw [List.filter_append]
  by_cases ht : key t = k
  · have hf : List.filter (fun u => decide (key u = k)) [t] = [t] := by simp [ht]
    rw [if_pos ht, hf, List.getLastD_concat]
  · have hf : List.filter (fun u => decide (key u = k)) [t] = [] := by simp [ht]
    rw [if_neg ht, hf, List.append_nil]

theorem mem_map_key_freshKeyFilter (key : JSVal → String) :
    ∀ (C : List JSVal) (s : List String) (x : String),
    x ∈ (freshKeyFilter key s C).map key ↔ x ∈ C.map key ∧ ¬ x ∈ s := by
  intro C
  induction C with
  | nil => intro s x; simp [freshKeyFilter]
  | cons c cs ih =>
      intro s x
      simp only [freshKeyFilter, List.map_cons, List.mem_cons]
      by_cases hc : key c ∈ s
      · rw [if_pos hc, ih]
        constructor
        · rintro ⟨h1, h2⟩; exact ⟨Or.inr h1, h2⟩
        · rintro ⟨h1 | h1, h2⟩
          · exact absurd (h1 ▸ hc) h2
          · exact ⟨h1, h2⟩
      · rw [if_neg hc]
        simp only [List.map_cons, List.mem_cons, ih, List.mem_append,
          List.mem_singleton]
        constructor
        · rintro (rfl | ⟨h1, h2⟩)
          · exact ⟨Or.inl rfl, hc⟩
          · exact ⟨Or.inr h1, fun hx => h2 (Or.inl hx)⟩
        · rintro ⟨rfl | h1, h2⟩
          · exact Or.inl rfl
          · by_cases hx : x = key c
            · exact Or.inl hx
            · exact Or.inr ⟨h1, by simp [h2, hx]⟩

theorem nodup_map_key_freshKeyFilter (key : JSVal → String) :
    ∀ (C : List JSVal) (s : List String),
    ((freshKeyFilter key s C).map key).Nodup := by
  intro C
  induction C with
  | nil => intro s; simp [freshKeyFilter]
  | cons c cs ih =>
      intro s
      simp only [freshKeyFilter]
      by_cases hc : key c ∈ s
      · rw [if_pos hc]; exact ih s
      · rw [if_neg hc]
        simp only [List.map_cons, List.nodup_cons]
        refine ⟨fun hmem => ?_, ih (s ++ [key c])⟩
        rw [mem_map_key_freshKeyFilter] at hmem
        exact hmem.2 (by simp)

theorem setField_map_last (key : JSVal → String) (C : List JSVal) (t : JSVal) :
    ∀ l : List JSVal, (l.map key).Nodup → key t ∈ l.map key →
    setField (l.map fun u => (key u, lastWithKey key (key u) C)) (key t) t
      = l.map fun u => (key u, lastWithKey key (key u) (C ++ [t])) := by
  intro l
  induction l with
  | nil => intro _ h; simp at h
  | cons u us ih =>
      intro hnd hmem
      simp only [List.map_cons, setField]
      simp only [List.map_cons, List.nodup_cons] at hnd
      by_cases hu : key u = key t
      · rw [if_pos hu]
        have hnotin : ¬ key t ∈ us.map key := hu ▸ hnd.1
        congr 1
        · rw [lastWithKey_concat, if_pos hu.symm]
        · apply List.map_congr_left
          intro v hv
          have hne : key t ≠ key v := fun hh =>
            hnotin (hh ▸ List.mem_map_of_mem key hv)
          rw [lastWithKey_concat, if_neg hne]
      · rw [if_neg hu]
        congr 1
        · rw [lastWithKey_concat, if_neg (fun hh => hu hh.symm)]
        · apply ih hnd.2
          rcases List.mem_cons.mp hmem with hh | hh
          · exact absurd hh.symm hu
          · exact hh

theorem foldIns_spec (key : JSVal → String) :
    ∀ C : List JSVal,
    foldIns key [] C
      = (freshKeyFilter key [] C).map fun t => (key t, lastWithKey key (key t) C) := by
  intro C
  induction C using List.reverseRecOn with
  | nil => rfl
  | append_singleton C t ih =>
      rw [foldIns_append, ih]
      show setField _ (key t) t = _
      rw [freshKeyFilter_concat]
      simp only [List.not_mem_nil, false_or]
      by_cases hmem : key t ∈ C.map key
      · rw [if_pos hmem, List.append_nil]
        exact setField_map_last key C t (freshKeyFilter key [] C)
          (nodup_map_key_freshKeyFilter key C [])
          ((mem_map_key_freshKeyFilter key C [] (key t)).mpr
            ⟨hmem, List.not_mem_nil _⟩)
      · rw [if_neg hmem]
        rw [setField_of_not_mem_keys (by
          rw [List.map_map]
          intro hmm
          obtain ⟨u, hu, hku⟩ := List.mem_map.mp hmm
          have : key t ∈ (freshKeyFilter key [] C).map key :=
            List.mem_map.mpr ⟨u, hu, hku⟩
          rw [mem_map_key_freshKeyFilter] at this
          exact hmem this.1)]
        rw [List.map_append]
        congr 1
        · apply List.map_congr_left
          intro u hu
          have hku : key u ∈ C.map key :=
            ((mem_map_key_freshKeyFilter key C [] (key u)).mp
              (List.mem_map_of_mem key hu)).1
          have hne : key t ≠ key u := fun hh => hmem (hh ▸ hku)
          rw [lastWithKey_concat, if_neg hne]
        · simp only [List.map_cons, List.map_nil]
          rw [lastWithKey_concat, if_pos rfl]

theorem foldIns_values_spec (key : JSVal → String) (P L : List JSVal) :
    (foldIns key [] (P ++ L)).map Prod.snd = specPendingOrder key P L := by
  rw [foldIns_spec, specPendingOrder, List.map_map]
  apply List.map_congr_left
  intro u _
  rfl

/-- C5: on every successful merge, the output's pending trades are
exactly the spec-side deduplication: keys are the trade's truthy `id` or
its tuple with missing fields empty; positions follow the portfolio's
retained trades in original order then the new legacy trades; each
position carries the last same-key insertion, so a legacy trade replaces
a same-key portfolio trade and keyless trades identical on the tuple
collapse to one entry. -/
theorem C5_pending_merge :
    (∀ p d out : JSVal, truthy p = true → truthy d = true →
      Part000.mergeOldDataToPortfolio p d = .ok out →
      ∃ ppt lpt : List JSVal,
        arrayOf? (jsOr (getF p "pendingTrades") (.arr [])) = .ok ppt ∧
        arrayOf? (jsOr (getF d "pendingTrades") (.arr [])) = .ok lpt ∧
        getF out "pendingTrades" = .arr (specPendingOrder Part000.keyOf
          (ppt.filter fun t => truthy t && memJS (getF t "fundCode") (outFundCodes out))
          (lpt.filter fun t => truthy t && memJS (getF t "fundCode") (outFundCodes out)))) ∧
    (∀ t1 t2 : JSVal, specKeyData t1 = specKeyData t2 →
      Part000.keyOf t1 = Part000.keyOf t2) := by
  constructor
  · intro p d out hp hd h
    obtain ⟨pf, ec, lf, ac, pfav, lfav, pg, lg, mg, ppt, lpt,
      e1, e2, e3, e4, e5, e6, e7, e8, e9, e10, e11, hout⟩ := merge_ok_inv hp hd h
    refine ⟨ppt, lpt, e10, e11, ?_⟩
    have hfunds : getF out "funds" = .arr (pf ++ lf.filter fun f =>
        truthy f && truthy (getF f "code") && ¬ memJS (getF f "code") ec) := by
      rw [hout]
      show lookupF _ "funds" = _
      rw [lookupF_setField_ne _ (by decide) _, lookupF_setField_ne _ (by decide) _,
        lookupF_setField_ne _ (by decide) _, lookupF_setField_ne _ (by decide) _,
        lookupF_setField_self]
    have hac : outFundCodes out = ac := by
      rw [outFundCodes, hfunds, mapCodes_ok_elim e4]
      rfl
    have hpt : getF out "pendingTrades" = .arr ((Part000.insertTrades ac
        (Part000.insertTrades ac [] ppt) lpt).map Prod.snd) := by
      rw [hout]
      show lookupF _ "pendingTrades" = _
      rw [lookupF_setField_self]
    rw [hpt, hac, insertTrades_eq_foldIns, insertTrades_eq_foldIns,
      ← foldIns_append, foldIns_values_spec]
  · intro t1 t2 hkey
    unfold specKeyData at hkey
    unfold Part000.keyOf
    by_cases h1 : truthy (getF t1 "id") = true <;>
      by_cases h2 : truthy (getF t2 "id") = true
    · simp only [if_pos h1, if_pos h2, Sum.inl.injEq] at hkey
      rw [if_pos h1, if_pos h2, hkey]
    · simp only [if_pos h1, if_neg h2] at hkey
      exact Sum.noConfusion hkey
    · simp only [if_neg h1, if_pos h2] at hkey
      exact Sum.noConfusion hkey
    · simp only [if_neg h1, if_neg h2, Sum.inr.injEq, Prod.mk.injEq] at hkey
      obtain ⟨hfc, hty, hdt, hsh, ham, haf⟩ := hkey
      rw [if_neg h1, if_neg h2, hfc, hty, hdt, hsh, ham, haf]

/-- Inputs exercising the pending-trade merge: an id-keyed trade replaced
by the legacy version and a keyless duplicate collapsing. -/
def c5P : JSVal :=
  .obj [("funds", .arr [.obj [("code", .str "A")]]),
    ("pendingTrades", .arr [
      .obj [("id", .str "t"), ("fundCode", .str "A"), ("amount", .num 1)],
      .obj [("fundCode", .str "A"), ("type", .str "buy")]])]

def c5D : JSVal :=
  .obj [("pendingTrades", .arr [
    .obj [("id", .str "t"), ("fundCode", .str "A"), ("amount", .num 2)],
    .obj [("fundCode", .str "A"), ("type", .str "buy")]])]

def c5Out : JSVal :=
  .obj [("funds", .arr [.obj [("code", .str "A")]]),
    ("pendingTrades", .arr [
      .obj [("id", .str "t"), ("fundCode", .str "A"), ("amount", .num 2)],
      .obj [("fundCode", .str "A"), ("type", .str "buy")]]),
    ("favorites", .arr []), ("groups", .arr []), ("holdings", .obj [])]

theorem C5_pending_merge_witness :
    Part000.mergeOldDataToPortfolio c5P c5D = .ok c5Out ∧
    (∃ ppt lpt : List JSVal,
      arrayOf? (jsOr (getF c5P "pendingTrades") (.arr [])) = .ok ppt ∧
      arrayOf? (jsOr (getF c5D "pendingTrades") (.arr [])) = .ok lpt ∧
      getF c5Out "pendingTrades" = .arr (specPendingOrder Part000.keyOf
        (ppt.filter fun t => truthy t && memJS (getF t "fundCode") (outFundCodes c5Out))
        (lpt.filter fun t => truthy t && memJS (getF t "fundCode") (outFundCodes c5Out)))) ∧
    Part000.keyOf (.obj [("fundCode", .str "A"), ("share", .num 0)])
      = Part000.keyOf (.obj [("share", .num 0), ("fundCode", .str "A"), ("note", .str "z")]) :=
  ⟨rfl,
   C5_pending_merge.1 c5P c5D c5Out rfl rfl rfl,
   C5_pending_merge.2 (.obj [("fundCode", .str "A"), ("share", .num 0)])
     (.obj [("share", .num 0), ("fundCode", .str "A"), ("note", .str "z")]) (by decide)⟩

/-! Claim C1: referential integrity of the merge.  The duplicate-code
guard only checks legacy codes against the portfolio's codes, and only
groups touched by the merge get their codes filtered, so the invariant
as claimed fails; it holds under the portfolio's own well-formedness. -/

/-- A portfolio whose group references a fund that never existed. -/
def c1P : JSVal :=
  .obj [("funds", .arr []),
    ("groups", .arr [.obj [("id", .num 1), ("codes", .arr [.str "X"])]])]

/-- A legacy document listing the same fund code twice. -/
def c1D : JSVal :=
  .obj [("funds", .arr [.obj [("code", .str "A")], .obj [("code", .str "A")]])]

def c1Out : JSVal :=
  .obj [("funds", .arr [.obj [("code", .str "A")], .obj [("code", .str "A")]]),
    ("groups", .arr [.obj [("id", .num 1), ("codes", .arr [.str "X"])]]),
    ("favorites", .arr []), ("holdings", .obj []), ("pendingTrades", .arr [])]

theorem C1_counterexample_violations :
    Part000.mergeOldDataToPortfolio c1P c1D = .ok c1Out ∧
    ¬ ((asArr (getF c1Out "funds")).map fun f => getF f "code").Nodup ∧
    ¬ (∀ g ∈ asArr (getF c1Out "groups"), ∀ c ∈ asArr (getF g "codes"),
        c ∈ (asArr (getF c1Out "funds")).map fun f => getF f "code") := by
  refine ⟨rfl, ?_, ?_⟩ <;> decide

theorem spreadArr?_cases {v : JSVal} {l : List JSVal} (h : spreadArr? v = .ok l) :
    l = asArr v ∨ ∀ g ∈ l, ∃ c, g = JSVal.str (String.singleton c) := by
  cases v with
  | str s =>
      right
      simp only [spreadArr?, Except.ok.injEq] at h
      subst h
      intro g hg
      obtain ⟨c, _, rfl⟩ := List.mem_map.mp hg
      exact ⟨c, rfl⟩
  | arr xs => left; simp_all [spreadArr?, asArr]
  | undefined => simp [spreadArr?] at h
  | null => simp [spreadArr?] at h
  | bool b => simp [spreadArr?] at h
  | num n => simp [spreadArr?] at h
  | obj fs => simp [spreadArr?] at h

theorem insertTrades_mem (ac : List JSVal) :
    ∀ (ts : List JSVal) (m : List (String × JSVal)) (kv : String × JSVal),
    kv ∈ Part000.insertTrades ac m ts →
    kv ∈ m ∨ (truthy kv.2 = true ∧ memJS (getF kv.2 "fundCode") ac = true) := by
  intro ts
  induction ts with
  | nil => intro m kv h; exact .inl h
  | cons t ts ih =>
      intro m kv h
      simp only [Part000.insertTrades] at h
      rcases ih _ kv h with hm | hprop
      · by_cases hc : (truthy t && memJS (getF t "fundCode") ac) = true
        · rw [if_pos hc] at hm
          rcases mem_setField hm with hm | rfl
          · exact .inl hm
          · exact .inr ⟨((Bool.and_eq_true _ _).mp hc).1,
              ((Bool.and_eq_true _ _).mp hc).2⟩
        · rw [if_neg hc] at hm
          exact .inl hm
      · exact .inr hprop

theorem mergeOneGroup_inv {ac gs : List JSVal} {inc : JSVal} {gs' : List JSVal}
    (hinv : ∀ g ∈ gs, ∀ c ∈ asArr (getF g "codes"), c ∈ ac)
    (h : Part000.mergeOneGroup ac gs inc = .ok gs') :
    ∀ g ∈ gs', ∀ c ∈ asArr (getF g "codes"), c ∈ ac := by
  unfold Part000.mergeOneGroup at h
  cases hidx : Part000.findIdxById gs inc with
  | error e => rw [hidx] at h; simp at h
  | ok idx =>
  rw [hidx] at h
  simp only [bindE_ok] at h
  split at h
  · rename_i i
    cases hoc : spreadArr? (getF (gs.getD i .undefined) "codes") with
    | error e => rw [hoc] at h; simp at h
    | ok oldCodes =>
    rw [hoc] at h
    simp only [bindE_ok] at h
    cases hic : get? inc "codes" with
    | error e => rw [hic] at h; simp at h
    | ok incCodesV =>
    rw [hic] at h
    simp only [bindE_ok] at h
    cases hic2 : spreadArr? (jsOr incCodesV (.arr [])) with
    | error e => rw [hic2] at h; simp at h
    | ok incCodes =>
    rw [hic2] at h
    simp only [bindE_ok, Except.ok.injEq] at h
    subst h
    intro g hg c hc
    rcases List.mem_or_eq_of_mem_set hg with hg | rfl
    · exact hinv g hg c hc
    · have hlook : getF (JSVal.obj (setField (spreadFields (gs.getD i .undefined)) "codes"
          (.arr ((firstDedup (oldCodes ++ incCodes)).filter fun c => memJS c ac))))
          "codes"
          = .arr ((firstDedup (oldCodes ++ incCodes)).filter fun c => memJS c ac) := by
        show lookupF _ _ = _
        rw [lookupF_setField_self]
      rw [hlook] at hc
      exact memJS_iff.mp (List.mem_filter.mp hc).2
  · cases hic : get? inc "codes" with
    | error e => rw [hic] at h; simp at h
    | ok incCodesV =>
    rw [hic] at h
    simp only [bindE_ok] at h
    cases hic2 : arrayOf? (jsOr incCodesV (.arr [])) with
    | error e => rw [hic2] at h; simp at h
    | ok incCodes =>
    rw [hic2] at h
    simp only [bindE_ok, Except.ok.injEq] at h
    subst h
    intro g hg c hc
    rcases List.mem_append.mp hg with hg | hg
    · exact hinv g hg c hc
    · rcases List.mem_singleton.mp hg with rfl
      have hlook : getF (JSVal.obj (setField (spreadFields inc) "codes"
          (.arr (incCodes.filter fun c => memJS c ac)))) "codes"
          = .arr (incCodes.filter fun c => memJS c ac) := by
        show lookupF _ _ = _
        rw [lookupF_setField_self]
      rw [hlook] at hc
      exact memJS_iff.mp (List.mem_filter.mp hc).2

theorem mergeGroups_inv {ac : List JSVal} :
    ∀ (lgs gs gs' : List JSVal),
    (∀ g ∈ gs, ∀ c ∈ asArr (getF g "codes"), c ∈ ac) →
    Part000.mergeGroups ac gs lgs = .ok gs' →
    ∀ g ∈ gs', ∀ c ∈ asArr (getF g "codes"), c ∈ ac := by
  intro lgs
  induction lgs with
  | nil =>
      intro gs gs' hinv h
      simp only [Part000.mergeGroups, Except.ok.injEq] at h
      subst h
      exact hinv
  | cons inc incs ih =>
      intro gs gs' hinv h
      simp only [Part000.mergeGroups] at h
      cases h1 : Part000.mergeOneGroup ac gs inc with
      | error e => rw [h1] at h; simp at h
      | ok gs1 =>
          rw [h1] at h
          simp only [bindE_ok] at h
          exact ih gs1 gs' (mergeOneGroup_inv hinv h1) h

/-- C1 amended: provided the input portfolio's fund codes are pairwise
distinct, the legacy document's truthy-coded funds carry pairwise
distinct codes, and every code of every input-portfolio group references
an input-portfolio fund, then the merged portfolio satisfies the full
invariant: no two funds share a code, and favorites, group codes,
holdings keys and pending trades all reference merged fund codes. -/
theorem C1_merge_referential_integrity :
    ∀ p d out : JSVal, truthy p = true → truthy d = true →
    Part000.mergeOldDataToPortfolio p d = .ok out →
    ((asArr (jsOr (getF p "funds") (.arr []))).map fun f => getF f "code").Nodup →
    (((asArr (jsOr (getF d "funds") (.arr []))).filter fun f =>
        truthy f && truthy (getF f "code")).map fun f => getF f "code").Nodup →
    (∀ g ∈ asArr (jsOr (getF p "groups") (.arr [])),
      ∀ c ∈ asArr (getF g "codes"),
      c ∈ (asArr (jsOr (getF p "funds") (.arr []))).map fun f => getF f "code") →
    (((asArr (getF out "funds")).map fun f => getF f "code").Nodup ∧
     (∀ c ∈ asArr (getF out "favorites"), c ∈ outFundCodes out) ∧
     (∀ g ∈ asArr (getF out "groups"), ∀ c ∈ asArr (getF g "codes"),
       c ∈ outFundCodes out) ∧
     (∀ k ∈ keys (getF out "holdings"), JSVal.str k ∈ outFundCodes out) ∧
     (∀ t ∈ asArr (getF out "pendingTrades"),
       getF t "fundCode" ∈ outFundCodes out)) := by
  intro p d out hp hd h hnodP hnodD hgrp
  obtain ⟨pf, ec, lf, ac, pfav, lfav, pg, lg, mg, ppt, lpt,
    e1, e2, e3, e4, e5, e6, e7, e8, e9, e10, e11, hout⟩ := merge_ok_inv hp hd h
  have hpf : asArr (jsOr (getF p "funds") (.arr [])) = pf := by
    rw [arrayOf?_ok e1]
    rfl
  have hlf : asArr (jsOr (getF d "funds") (.arr [])) = lf := by
    rw [arrayOf?_ok e3]
    rfl
  rw [hpf] at hnodP hgrp
  rw [hlf] at hnodD
  set newF := lf.filter (fun f => truthy f && truthy (getF f "code")
      && ¬ memJS (getF f "code") ec) with hnewF
  have hec : ec = pf.map fun f => getF f "code" := mapCodes_ok_elim e2
  have hacv : ac = (pf ++ newF).map fun f => getF f "code" := mapCodes_ok_elim e4
  have hfunds : getF out "funds" = .arr (pf ++ newF) := by
    rw [hout]
    show lookupF _ "funds" = _
    rw [lookupF_setField_ne _ (by decide) _, lookupF_setField_ne _ (by decide) _,
      lookupF_setField_ne _ (by decide) _, lookupF_setField_ne _ (by decide) _,
      lookupF_setField_self]
  have hfav : getF out "favorites"
      = .arr ((firstDedup (pfav ++ lfav)).filter fun c => memJS c ac) := by
    rw [hout]
    show lookupF _ "favorites" = _
    rw [lookupF_setField_ne _ (by decide) _, lookupF_setField_ne _ (by decide) _,
      lookupF_setField_ne _ (by decide) _, lookupF_setField_self]
  have hgroups : getF out "groups" = .arr mg := by
    rw [hout]
    show lookupF _ "groups" = _
    rw [lookupF_setField_ne _ (by decide) _, lookupF_setField_ne _ (by decide) _,
      lookupF_setField_self]
  have hhold : getF out "holdings" = .obj (Part000.mergeHoldings ac
      (getF p "holdings") (getF d "holdings")) := by
    rw [hout]
    show lookupF _ "holdings" = _
    rw [lookupF_setField_ne _ (by decide) _, lookupF_setField_self]
  have hpend : getF out "pendingTrades" = .arr ((Part000.insertTrades ac
      (Part000.insertTrades ac [] ppt) lpt).map Prod.snd) := by
    rw [hout]
    show lookupF _ "pendingTrades" = _
    rw [lookupF_setField_self]
  have hoc : outFundCodes out = ac := by
    rw [outFundCodes, hfunds, hacv]
    rfl
  refine ⟨?_, ?_, ?_, ?_, ?_⟩
  · rw [hfunds]
    show ((pf ++ newF).map fun f => getF f "code").Nodup
    rw [List.map_append, List.nodup_append]
    refine ⟨hnodP, ?_, ?_⟩
    · have hsubl : newF.Sublist (lf.filter fun f =>
          truthy f && truthy (getF f "code")) := by
        rw [hnewF, ← List.filter_filter]
        exact List.Sublist.filter _ (List.filter_sublist lf)
      exact hnodD.sublist (hsubl.map _)
    · intro a ha1 ha2
      obtain ⟨f, hf, rfl⟩ := List.mem_map.mp ha2
      have hfilt := (List.mem_filter.mp (hnewF ▸ hf)).2
      have hnm : ¬ memJS (getF f "code") ec = true := by
        have := (Bool.and_eq_true _ _).mp hfilt
        simpa using this.2
      rw [hec] at hnm
      exact hnm (memJS_iff.mpr ha1)
  · rw [hfav, hoc]
    intro c hc
    have hc' : c ∈ (firstDedup (pfav ++ lfav)).filter fun c => memJS c ac := hc
    exact memJS_iff.mp (List.mem_filter.mp hc').2
  · rw [hgroups, hoc]
    have hpg0 : ∀ g ∈ pg, ∀ c ∈ asArr (getF g "codes"), c ∈ ac := by
      rcases spreadArr?_cases e7 with hcase | hcase
      · intro g hg c hc
        have hg' : g ∈ asArr (jsOr (getF p "groups") (.arr [])) := hcase ▸ hg
        have hmem := hgrp g hg' c hc
        rw [hacv, List.map_append]
        exact List.mem_append_left _ hmem
      · intro g hg c hc
        obtain ⟨ch, rfl⟩ := hcase g hg
        simp [getF, asArr] at hc
    exact mergeGroups_inv _ pg mg hpg0 e9
  · rw [hhold, hoc]
    intro k hk
    have hk' : k ∈ (Part000.mergeHoldings ac (getF p "holdings")
        (getF d "holdings")).map Prod.fst := hk
    obtain ⟨kv, hkv, rfl⟩ := List.mem_map.mp hk'
    unfold Part000.mergeHoldings at hkv
    exact memJS_iff.mp (List.mem_filter.mp hkv).2
  · rw [hpend, hoc]
    intro t ht
    obtain ⟨kv, hkv, rfl⟩ := List.mem_map.mp ht
    rcases insertTrades_mem ac lpt (Part000.insertTrades ac [] ppt) kv hkv with hm | hprop
    · rcases insertTrades_mem ac ppt [] kv hm with hm0 | hprop0
      · exact absurd hm0 (List.not_mem_nil kv)
      · exact memJS_iff.mp hprop0.2
    · exact memJS_iff.mp hprop.2

/-- Well-formed inputs exercising every merged collection. -/
def c1WP : JSVal :=
  .obj [("funds", .arr [.obj [("code", .str "A")]]),
    ("groups", .arr [.obj [("id", .num 1), ("codes", .arr [.str "A"])]])]

def c1WD : JSVal :=
  .obj [("funds", .arr [.obj [("code", .str "B")], .null]),
    ("favorites", .arr [.str "B", .str "Z"]),
    ("holdings", .obj [("B", .num 1), ("Z", .num 2)]),
    ("pendingTrades", .arr [.obj [("fundCode", .str "B")]]),
    ("groups", .arr [.obj [("id", .num 2), ("codes", .arr [.str "A", .str "B", .str "Q"])]])]

def c1WOut : JSVal :=
  .obj [("funds", .arr [.obj [("code", .str "A")], .obj [("code", .str "B")]]),
    ("groups", .arr [.obj [("id", .num 1), ("codes", .arr [.str "A"])],
      .obj [("id", .num 2), ("codes", .arr [.str "A", .str "B"])]]),
    ("favorites", .arr [.str "B"]),
    ("holdings", .obj [("B", .num 1)]),
    ("pendingTrades", .arr [.obj [("fundCode", .str "B")]])]

theorem C1_merge_referential_integrity_witness :
    Part000.mergeOldDataToPortfolio c1WP c1WD = .ok c1WOut ∧
    (((asArr (getF c1WOut "funds")).map fun f => getF f "code").Nodup ∧
     (∀ c ∈ asArr (getF c1WOut "favorites"), c ∈ outFundCodes c1WOut) ∧
     (∀ g ∈ asArr (getF c1WOut "groups"), ∀ c ∈ asArr (getF g "codes"),
       c ∈ outFundCodes c1WOut) ∧
     (∀ k ∈ keys (getF c1WOut "holdings"), JSVal.str k ∈ outFundCodes c1WOut) ∧
     (∀ t ∈ asArr (getF c1WOut "pendingTrades"),
       getF t "fundCode" ∈ outFundCodes c1WOut)) :=
  ⟨rfl, C1_merge_referential_integrity c1WP c1WD c1WOut rfl rfl rfl
    (by decide) (by decide) (by decide)⟩
